import Mathlib

/-!
# Remik (Polish Rummy) — verification of the meld classifier and round state machine

A shallow embedding of the Remik card-game engine:

* `src/unnamed/part_006` (`engine/card.js`): rank/suit constants, `rankIndex`,
  `getCardValue`.
* `src/unnamed/part_004` (`engine/melds.js`): `canFitInRange`,
  `isValidSequence`, `isValidGroup`, `classifyMeld`, `isMeldLowAce`,
  `calculateMeldsPoints`, `hasPureSubRun`, `isValidOpening`, `canExtendMeld`,
  the auto-split helpers and `autoSplitMelds`.
* `src/src/server/gameServer.cjs`: the server's independent copies
  `serverIsValidSequence` (via `trySequence`), `serverIsValidGroup`,
  `serverClassifyMeld`.
* `src/src/engine/deck.js` (the `engine/gameState.js` module, multiplayer
  copy, lines 724–1268): the round state machine — `drawFromStock`,
  `drawFromDiscard`, `playMelds`, `addToTableMeld`, `swapJoker`, `discard`,
  `skipMeld`, `advanceTurn`, `endRound`, `reshuffleIfNeeded`.

JS arrays become `List`s (array `push` appends at the end, `pop` takes from
the end, so the top of stock/discard is the *last* list element, as in the
source).  The RNG-driven `shuffleDeck` is a parameter of the operations that
call it.
-/

namespace Remik

/-- Ranks, in the order of the `RANKS` array, plus the `'JOKER'` sentinel
rank carried by joker cards. -/
inductive Rank where
  | rA | r2 | r3 | r4 | r5 | r6 | r7 | r8 | r9 | r10 | rJ | rQ | rK
  | rJOKER
deriving DecidableEq, Repr

/-- Suits, in the order of the `SUITS` array, plus the empty suit `''`
carried by joker cards. -/
inductive Suit where
  | spades | hearts | diamonds | clubs | noSuit
deriving DecidableEq, Repr

/-- `{id, rank, suit, isJoker}` card objects. -/
structure Card where
  id : Nat
  rank : Rank
  suit : Suit
  isJoker : Bool
deriving DecidableEq, Repr

/-- `rankIndex(rank)`: `RANKS.indexOf(rank)` — 0-based, Ace = 0, King = 12;
`'JOKER'` is not in `RANKS`, so `indexOf` yields `-1`. -/
def rankIndex : Rank → Int
  | .rA => 0 | .r2 => 1 | .r3 => 2 | .r4 => 3 | .r5 => 4 | .r6 => 5
  | .r7 => 6 | .r8 => 7 | .r9 => 8 | .r10 => 9 | .rJ => 10 | .rQ => 11
  | .rK => 12
  | .rJOKER => -1

/-- `aceHighIndex(rank)` (`melds.js`): rank index treating Ace as 13. -/
def aceHighIndex (r : Rank) : Int :=
  if r = .rA then 13 else rankIndex r

/-- The `POINT_VALUES` table: A=11, number cards face value, court cards 10,
JOKER 50. -/
def pointValue : Rank → Int
  | .rA => 11 | .r2 => 2 | .r3 => 3 | .r4 => 4 | .r5 => 5 | .r6 => 6
  | .r7 => 7 | .r8 => 8 | .r9 => 9 | .r10 => 10 | .rJ => 10 | .rQ => 10
  | .rK => 10
  | .rJOKER => 50

/-- `getCardValue(card, lowAce)`: joker → 50; Ace with `lowAce` → 1;
otherwise the `POINT_VALUES` entry. -/
def getCardValue (c : Card) (lowAce : Bool) : Int :=
  if c.isJoker then 50
  else if c.rank = .rA ∧ lowAce then 1
  else pointValue c.rank

/-! ## Meld classifier (`engine/melds.js`, client copy) -/

/-- Adjacent-duplicate test on a list of rank indices (the
`naturalRanks[i] === naturalRanks[i-1]` loop of `canFitInRange`). -/
def hasAdjDup : List Int → Bool
  | [] => false
  | [_] => false
  | a :: b :: t => a == b || hasAdjDup (b :: t)

/-- `canFitInRange(naturalRanks, jokerCount, minRank, maxRank)`: can the
sorted natural rank indices plus `jokerCount` wildcards fill a contiguous
run of `naturalRanks.length + jokerCount` slots inside
`[minRank, maxRank]`?  The start position is searched over
`[naturalRanks[0] - jokerCount, naturalRanks[0]]`. -/
def canFitInRange (naturalRanks : List Int) (jokerCount : Nat)
    (minRank maxRank : Int) : Bool :=
  match naturalRanks with
  | [] => false
  | r0 :: rest =>
    let totalLen : Int := (rest.length + 1 : Nat) + (jokerCount : Int)
    let span : Int := (r0 :: rest).getLastD r0 - r0
    if totalLen ≤ span then false
    else if hasAdjDup (r0 :: rest) then false
    else
      (List.range (jokerCount + 1)).any (fun k =>
        let start : Int := r0 - (jokerCount : Int) + (k : Int)
        let stop : Int := start + totalLen - 1
        decide (minRank ≤ start) && decide (stop ≤ maxRank) &&
          (r0 :: rest).all (fun r => decide (start ≤ r) && decide (r ≤ stop)))

/-- `isValidSequence(cards)` (client copy, `melds.js`): 3+ same-suit
naturals + jokers forming a contiguous run, ace low or high, no wrap,
order-independent. -/
def isValidSequence (cards : List Card) : Bool :=
  if cards.length < 3 then false
  else
    let naturals := cards.filter (fun c => !c.isJoker)
    let jokerCount := cards.length - naturals.length
    match naturals with
    | [] => false
    | n0 :: _ =>
      if !(naturals.all (fun c => decide (c.suit = n0.suit))) then false
      else if naturals.length + 1 < jokerCount then false
      else
        let naturalRanksLow :=
          List.insertionSort (· ≤ ·) (naturals.map (fun c => rankIndex c.rank))
        let naturalRanksHigh :=
          List.insertionSort (· ≤ ·) (naturals.map (fun c => aceHighIndex c.rank))
        canFitInRange naturalRanksLow jokerCount 0 12 ||
          canFitInRange naturalRanksHigh jokerCount 1 13

/-- Keep the first occurrence of each element (JS `Set` / `Map`-key
semantics). -/
def firstDedup [DecidableEq α] : List α → List α
  | [] => []
  | a :: t => a :: (firstDedup t).filter (fun x => x ≠ a)

/-- `isValidGroup(cards)` (client copy): 3–4 cards, naturals share one rank,
pairwise-distinct suits, at least as many naturals as jokers. -/
def isValidGroup (cards : List Card) : Bool :=
  if cards.length < 3 || 4 < cards.length then false
  else
    let naturals := cards.filter (fun c => !c.isJoker)
    let jokerCount := cards.length - naturals.length
    match naturals with
    | [] => false
    | n0 :: _ =>
      if naturals.length < jokerCount then false
      else if !(naturals.all (fun c => decide (c.rank = n0.rank))) then false
      else
        let suits := naturals.map (fun c => c.suit)
        if (firstDedup suits).length ≠ suits.length then false
        else true

/-- Result of `classifyMeld`: `'sequence'`, `'group'` or `false`. -/
inductive MeldType where
  | sequence | group
deriving DecidableEq, Repr

/-- `classifyMeld(cards)`: sequences are checked first. -/
def classifyMeld (cards : List Card) : Option MeldType :=
  if isValidSequence cards then some .sequence
  else if isValidGroup cards then some .group
  else none

/-! ## Point calculation and opening check (`melds.js`) -/

/-- `isMeldLowAce(meld)`: the meld has a natural Ace, is a valid sequence,
and its naturals fit the ace-low window but not the ace-high window. -/
def isMeldLowAce (meld : List Card) : Bool :=
  let naturals := meld.filter (fun c => !c.isJoker)
  if !(naturals.any (fun c => decide (c.rank = .rA))) then false
  else if !isValidSequence meld then false
  else
    let naturalRanksLow :=
      List.insertionSort (· ≤ ·) (naturals.map (fun c => rankIndex c.rank))
    let naturalRanksHigh :=
      List.insertionSort (· ≤ ·) (naturals.map (fun c => aceHighIndex c.rank))
    let jokerCount := meld.length - naturals.length
    let fitsLow := canFitInRange naturalRanksLow jokerCount 0 12
    let fitsHigh := canFitInRange naturalRanksHigh jokerCount 1 13
    fitsLow && !fitsHigh

/-- `calculateMeldsPoints(melds)`: sum of card values, with the Ace counted
as 1 inside a low-ace sequence meld. -/
def calculateMeldsPoints (melds : List (List Card)) : Int :=
  (melds.map (fun meld =>
    let lowAce := isMeldLowAce meld
    (meld.map (fun card =>
      getCardValue card (lowAce && decide (card.rank = .rA)))).sum)).sum

/-- The `longestRun` helper of `hasPureSubRun`, on a sorted index list:
walk adjacent entries, counting a run of consecutive indices (equal
entries leave the run length unchanged); `true` when a run reaches 3. -/
def longestRunAux (run : Nat) : Int → List Int → Bool
  | _, [] => false
  | prev, x :: t =>
    if x == prev + 1 then
      if run + 1 ≥ 3 then true else longestRunAux (run + 1) x t
    else if x ≠ prev then longestRunAux 1 x t
    else longestRunAux run x t

/-- `longestRun(indices)`: sort ascending and look for 3 consecutive. -/
def longestRun (indices : List Int) : Bool :=
  match List.insertionSort (· ≤ ·) indices with
  | [] => false
  | x :: t => longestRunAux 1 x t

/-- `hasPureSubRun(naturals)`: do the natural cards contain 3+ cards at
consecutive rank indices, under the ace-low or the ace-high reading? -/
def hasPureSubRun (naturals : List Card) : Bool :=
  if naturals.length < 3 then false
  else
    longestRun (naturals.map (fun c => rankIndex c.rank)) ||
      longestRun (naturals.map (fun c => aceHighIndex c.rank))

/-- The distinct failure reasons of `isValidOpening` (client copy):
`'You must play at least one meld to open.'`,
`` `Meld ${i+1} is not a valid sequence or group.` ``,
`'Opening requires at least one sequence with 3+ consecutive natural cards.'`,
`` `Opening requires ≥ ${openRequirement} points. You have ${totalPoints}.` ``. -/
inductive OpenReason where
  | mustPlayMeld
  | invalidMeld (oneBasedIndex : Nat)
  | missingPureRun
  | insufficientPoints (required got : Int)
deriving DecidableEq, Repr

/-- `{valid: true} | {valid: false, reason}`. -/
inductive OpeningResult where
  | valid
  | invalid (reason : OpenReason)
deriving DecidableEq, Repr

/-- The `for` loop of `isValidOpening` that returns the first invalid
meld's (1-based) index. -/
def firstInvalidMeld (i : Nat) : List (List Card) → Option Nat
  | [] => none
  | m :: t =>
    if classifyMeld m = none then some (i + 1) else firstInvalidMeld (i + 1) t

/-- `isValidOpening(melds, openRequirement)` (client copy). -/
def isValidOpening (melds : List (List Card)) (openRequirement : Int) :
    OpeningResult :=
  if melds.length = 0 then .invalid .mustPlayMeld
  else
    match firstInvalidMeld 0 melds with
    | some i => .invalid (.invalidMeld i)
    | none =>
      let hasPureSequence := melds.any (fun meld =>
        isValidSequence meld &&
          hasPureSubRun (meld.filter (fun c => !c.isJoker)))
      if !hasPureSequence then .invalid .missingPureRun
      else
        let totalPoints := calculateMeldsPoints melds
        if totalPoints < openRequirement then
          .invalid (.insufficientPoints openRequirement totalPoints)
        else .valid

/-! ## Meld extension (`canExtendMeld`, `melds.js`) -/

/-- The `position` argument: `'start' | 'end'`. -/
inductive MeldPos where
  | posStart | posEnd
deriving DecidableEq, Repr

/-- `Math.max(...)` over a nonempty mapped list (callers guard
nonemptiness). -/
def listMax (x : Int) (xs : List Int) : Int := xs.foldl max x

/-- `Math.min(...)` over a nonempty mapped list. -/
def listMin (x : Int) (xs : List Int) : Int := xs.foldl min x

/-- The `combined` list of `canExtendMeld`: new cards concatenated at the
requested end. -/
def combinedMeld (position : MeldPos) (existingMeld newCards : List Card) :
    List Card :=
  match position with
  | .posStart => newCards ++ existingMeld
  | .posEnd => existingMeld ++ newCards

/-- `canExtendMeld(existingMeld, newCards, position)` (client copy):
concatenate at the requested end, re-classify, and for sequences insist
that the new naturals lie strictly beyond the existing naturals' range in
the direction of `position`, under the low or the high reading. -/
def canExtendMeld (existingMeld newCards : List Card) (position : MeldPos) :
    Bool :=
  let combined := combinedMeld position existingMeld newCards
  if classifyMeld combined = none then false
  else if isValidSequence combined then
    let existingNaturals := existingMeld.filter (fun c => !c.isJoker)
    let newNaturals := newCards.filter (fun c => !c.isJoker)
    match existingNaturals, newNaturals with
    | e0 :: eRest, w0 :: wRest =>
      let maxExLow := listMax (rankIndex e0.rank)
        (eRest.map (fun c => rankIndex c.rank))
      let minNewLow := listMin (rankIndex w0.rank)
        (wRest.map (fun c => rankIndex c.rank))
      let maxExHigh := listMax (aceHighIndex e0.rank)
        (eRest.map (fun c => aceHighIndex c.rank))
      let minNewHigh := listMin (aceHighIndex w0.rank)
        (wRest.map (fun c => aceHighIndex c.rank))
      let minExLow := listMin (rankIndex e0.rank)
        (eRest.map (fun c => rankIndex c.rank))
      let maxNewLow := listMax (rankIndex w0.rank)
        (wRest.map (fun c => rankIndex c.rank))
      let minExHigh := listMin (aceHighIndex e0.rank)
        (eRest.map (fun c => aceHighIndex c.rank))
      let maxNewHigh := listMax (aceHighIndex w0.rank)
        (wRest.map (fun c => aceHighIndex c.rank))
      match position with
      | .posEnd =>
        decide (maxExLow < minNewLow) || decide (maxExHigh < minNewHigh)
      | .posStart =>
        decide (maxNewLow < minExLow) || decide (maxNewHigh < minExHigh)
    | _, _ => true
  else true

/-! ## Auto-split helpers (`melds.js`) -/

/-- The run-extraction walk shared by `extractConsecutiveRunsLow` and
`extractConsecutiveRunsHigh`: `prev` is the previously visited card,
`run` the current run (in order); a finished run is kept when its length
is at least 3. -/
def extractRunsGo (idx : Card → Int) (prev : Card) (run : List Card) :
    List Card → List (List Card)
  | [] => if 3 ≤ run.length then [run] else []
  | d :: rest =>
    if idx d == idx prev + 1 then extractRunsGo idx d (run ++ [d]) rest
    else
      (if 3 ≤ run.length then [run] else []) ++ extractRunsGo idx d [d] rest

/-- `extractConsecutiveRunsLow(sortedCards)`: consecutive runs of 3+ by
`rankIndex`, over a list already sorted ascending by the caller. -/
def extractConsecutiveRunsLow : List Card → List (List Card)
  | [] => []
  | c0 :: rest => extractRunsGo (fun c => rankIndex c.rank) c0 [c0] rest

/-- `extractConsecutiveRunsHigh(cards)`: sort by `aceHighIndex`, extract
consecutive runs of 3+, and keep only runs containing an Ace. -/
def extractConsecutiveRunsHigh (cards : List Card) : List (List Card) :=
  let sorted := List.insertionSort
    (fun a b => aceHighIndex a.rank ≤ aceHighIndex b.rank) cards
  let runs :=
    match sorted with
    | [] => []
    | c0 :: rest => extractRunsGo (fun c => aceHighIndex c.rank) c0 [c0] rest
  runs.filter (fun run => run.any (fun c => decide (c.rank = .rA)))

/-- The `uniqueSuits` map of `extractGroups`: keep the first card of each
suit encountered. -/
def dedupBySuit : List Card → List Card
  | [] => []
  | a :: t => a :: (dedupBySuit t).filter (fun x => x.suit ≠ a.suit)

/-- `extractGroups(cards)`: group by rank, deduplicate suits keeping the
first of each, keep 3–4 card valid groups. -/
def extractGroups (cards : List Card) : List (List Card) :=
  (firstDedup (cards.map (fun c => c.rank))).filterMap (fun rank =>
    let group := cards.filter (fun c => decide (c.rank = rank))
    let dedupedGroup := dedupBySuit group
    if 3 ≤ dedupedGroup.length ∧ dedupedGroup.length ≤ 4 ∧
        isValidGroup dedupedGroup = true then
      some dedupedGroup
    else none)

/-- Accumulator state of the two split strategies: the melds collected so
far and the ids already used. -/
structure SplitAcc where
  melds : List (List Card)
  used : List Nat
deriving Repr

/-- Add the runs that use no already-used card and are valid sequences
(the `for (const run of lowRuns)` loops). -/
def addRuns (acc : SplitAcc) (runs : List (List Card)) : SplitAcc :=
  runs.foldl (fun acc run =>
    if !(run.any (fun c => acc.used.contains c.id)) &&
        isValidSequence run then
      { melds := acc.melds ++ [run], used := acc.used ++ run.map (·.id) }
    else acc) acc

/-- Per-suit extraction of ace-low then ace-high runs (the body of the
`for (const suit of Object.keys(bySuit))` loop). -/
def addSuitRuns (naturals : List Card) (acc : SplitAcc) (suit : Suit) :
    SplitAcc :=
  let suitCards := naturals.filter (fun c => decide (c.suit = suit))
  let sortedLow := List.insertionSort
    (fun a b => rankIndex a.rank ≤ rankIndex b.rank) suitCards
  let acc := addRuns acc (extractConsecutiveRunsLow sortedLow)
  let remainingSuit := suitCards.filter (fun c => !acc.used.contains c.id)
  addRuns acc (extractConsecutiveRunsHigh remainingSuit)

/-- Add the groups extracted from the leftover naturals (every extracted
group is pushed; the `used` check is not consulted because the groups come
from not-yet-used cards). -/
def addGroups (acc : SplitAcc) (groups : List (List Card)) : SplitAcc :=
  groups.foldl (fun acc g =>
    { melds := acc.melds ++ [g], used := acc.used ++ g.map (·.id) }) acc

/-- `trySplitSequencesFirst(cards)`: sequences by suit (low then high),
then groups from the leftovers; fail unless every natural and every joker
is used and at least one meld was formed. -/
def trySplitSequencesFirst (cards : List Card) : Option (List (List Card)) :=
  let jokers := cards.filter (fun c => c.isJoker)
  let naturals := cards.filter (fun c => !c.isJoker)
  let suitKeys := firstDedup (naturals.map (fun c => c.suit))
  let acc := suitKeys.foldl (addSuitRuns naturals) ⟨[], []⟩
  let remaining := naturals.filter (fun c => !acc.used.contains c.id)
  let acc := addGroups acc (extractGroups remaining)
  let unusedNonJoker := naturals.filter (fun c => !acc.used.contains c.id)
  if unusedNonJoker.length ≠ 0 then none
  else
    let unusedJokers := jokers.filter (fun j => !acc.used.contains j.id)
    if unusedJokers.length ≠ 0 then none
    else if acc.melds.length ≠ 0 then some acc.melds else none

/-- `trySplitGroupsFirst(cards)`: groups by rank first, then sequences
from the leftovers. -/
def trySplitGroupsFirst (cards : List Card) : Option (List (List Card)) :=
  let naturals := cards.filter (fun c => !c.isJoker)
  let jokers := cards.filter (fun c => c.isJoker)
  let acc := addGroups ⟨[], []⟩ (extractGroups naturals)
  let remaining := naturals.filter (fun c => !acc.used.contains c.id)
  let suitKeys := firstDedup (remaining.map (fun c => c.suit))
  let acc := suitKeys.foldl (addSuitRuns remaining) acc
  let unusedNonJoker := naturals.filter (fun c => !acc.used.contains c.id)
  if unusedNonJoker.length ≠ 0 then none
  else
    let unusedJokers := jokers.filter (fun j => !acc.used.contains j.id)
    if unusedJokers.length ≠ 0 then none
    else if acc.melds.length ≠ 0 then some acc.melds else none

/-- `autoSplitMelds(cards)`: sequences-first, then groups-first. -/
def autoSplitMelds (cards : List Card) : Option (List (List Card)) :=
  match trySplitSequencesFirst cards with
  | some result1 => some result1
  | none =>
    match trySplitGroupsFirst cards with
    | some result2 => some result2
    | none => none

/-! ## The server's independent classifier copy (`gameServer.cjs`) -/

/-- The first loop of the server's `trySequence`: scan for the first
non-joker card, counting the jokers before it; `currentRank` is its raw
`rankIndex` minus that joker count.  Returns `none` when every card is a
joker. -/
def serverFirstNaturalRank (jokersBeforeFirst : Nat) : List Card → Option Int
  | [] => none
  | c :: rest =>
    if c.isJoker then serverFirstNaturalRank (jokersBeforeFirst + 1) rest
    else some (rankIndex c.rank - (jokersBeforeFirst : Int))

/-- The indexed walk of the server's `trySequence`: card `i` must sit at
`expectedRank = currentRank + i`; with `aceLow = false` an Ace's index is
read as 13 and expected ranks above 12 other than 13 are rejected; with
`aceLow = true` negative expected ranks are rejected. -/
def serverSeqWalk (currentRank : Int) (aceLow : Bool)
    (cards : List Card) : Bool :=
  (List.range cards.length).all (fun i =>
    let expectedRank := currentRank + (i : Int)
    if !aceLow && decide (12 < expectedRank) && decide (expectedRank ≠ 13) then
      false
    else if aceLow && decide (expectedRank < 0) then false
    else
      match cards.get? i with
      | none => false
      | some card =>
        if card.isJoker then true
        else
          let adjIdx :=
            if !aceLow && rankIndex card.rank == 0 then 13
            else rankIndex card.rank
          adjIdx == expectedRank)

/-- The server's `trySequence(cards, naturalIndices, aceLow)` (the
`naturalIndices` argument is unused by the source body). -/
def trySequence (cards : List Card) (aceLow : Bool) : Bool :=
  match serverFirstNaturalRank 0 cards with
  | none => false
  | some currentRank =>
    if !serverSeqWalk currentRank aceLow cards then false
    else
      let startRank := currentRank
      let endRank := currentRank + (cards.length : Int) - 1
      if aceLow then
        decide (0 ≤ startRank) && decide (endRank ≤ 12)
      else
        decide (0 ≤ startRank) && decide (endRank ≤ 13)

/-- Adjacent-joker scan of the server's `isValidSequence` (in the given
card order). -/
def hasAdjacentJokers : List Card → Bool
  | [] => false
  | [_] => false
  | a :: b :: t => (a.isJoker && b.isJoker) || hasAdjacentJokers (b :: t)

/-- The server's `isValidSequence(cards)`: order-sensitive — the cards
must already be laid out in run order. -/
def serverIsValidSequence (cards : List Card) : Bool :=
  if cards.length < 3 then false
  else
    let naturals := cards.filter (fun c => !c.isJoker)
    match naturals with
    | [] => false
    | n0 :: _ =>
      if !(naturals.all (fun c => decide (c.suit = n0.suit))) then false
      else if hasAdjacentJokers cards then false
      else trySequence cards false || trySequence cards true

/-- The server's `isValidGroup(cards)`. -/
def serverIsValidGroup (cards : List Card) : Bool :=
  if cards.length < 3 || 4 < cards.length then false
  else
    let naturals := cards.filter (fun c => !c.isJoker)
    let jokers := cards.filter (fun c => c.isJoker)
    match naturals with
    | _ :: _ =>
      if naturals.length < jokers.length then false
      else if 1 < (firstDedup (naturals.map (fun c => c.rank))).length then
        false
      else if (firstDedup (naturals.map (fun c => c.suit))).length ≠
          naturals.length then false
      else true
    | [] => false

/-- The server's `classifyMeld(cards)`. -/
def serverClassifyMeld (cards : List Card) : Option MeldType :=
  if serverIsValidSequence cards then some .sequence
  else if serverIsValidGroup cards then some .group
  else none

/-! ## Round state machine (`engine/gameState.js`, multiplayer copy:
`src/src/engine/deck.js` lines 724–1268)

JS array `push`/`pop` work at the end, so the top of `stock` and
`discardPile` is the *last* element of the corresponding list.  The
RNG-driven `shuffleDeck` is passed in as a function parameter.  Reading
`state.players[i]` for an out-of-range `i` is out of contract in the
source (it would throw); here it yields a `badPlayerIndex` failure that
leaves the state unchanged. -/

/-- The `PHASE` constants. -/
inductive Phase where
  | DRAW | MELD | DISCARD | ROUND_OVER | GAME_OVER
deriving DecidableEq, Repr

/-- A player: hand, opening flag, cumulative score, elimination flag. -/
structure Player where
  hand : List Card
  hasOpened : Bool
  score : Int
  eliminated : Bool
deriving DecidableEq, Repr

/-- A table meld `{ cards, owner }`. -/
structure TableMeld where
  cards : List Card
  owner : Nat
deriving DecidableEq, Repr

/-- The configuration fields the state machine reads
(`engine/gameConfig.js` defaults: 501 / 51 / required). -/
structure Config where
  POINTS_LIMIT : Int
  OPEN_REQUIREMENT : Int
  REQUIRE_OPENING : Bool
deriving DecidableEq, Repr

/-- The default configuration. -/
def defaultConfig : Config :=
  { POINTS_LIMIT := 501, OPEN_REQUIREMENT := 51, REQUIRE_OPENING := true }

/-- The round-state aggregate. -/
structure GameState where
  players : List Player
  stock : List Card
  discardPile : List Card
  tableMelds : List TableMeld
  currentPlayerIndex : Nat
  phase : Phase
  roundNumber : Nat
  startingPlayerIndex : Nat
  stockReshuffleCount : Nat
  drawnFromDiscard : Bool
  drawnCard : Option Card
  roundWinner : Option Nat
  config : Config
deriving DecidableEq, Repr

/-- The distinct failure reasons returned by the mutating entry points. -/
inductive FailReason where
  | notDrawPhase
  | stockExhausted
  | discardPileEmpty
  | notMeldPhase
  | meldNotValid (oneBasedIndex : Nat)
  | openingRejected (r : OpenReason)
  | mustOpenFirst
  | invalidMeldIndex
  | someCardsNotInHand
  | cannotExtend
  | noJokerAtPosition
  | cardNotInHand
  | jokerForJoker
  | jokerMismatch
  | notMeldOrDiscardPhase
  | badPlayerIndex
deriving DecidableEq, Repr

/-- `{ success: true, card? } | { success: false, reason }`. -/
inductive MoveResult where
  | success (card : Option Card)
  | failure (reason : FailReason)
deriving DecidableEq, Repr

/-- JS `array.pop()`: the last element and the remaining array. -/
def popLast (l : List α) : Option (α × List α) :=
  match l.getLast? with
  | none => none
  | some a => some (a, l.dropLast)

/-- Replace player `i`. -/
def setPlayer (s : GameState) (i : Nat) (p : Player) : GameState :=
  { s with players := s.players.set i p }

/-- The round-end hand penalty of a losing player: the
`penalty += getCardValue(card, false)` loop of `endRound`. -/
def handPenalty (hand : List Card) : Int :=
  (hand.map (fun card => getCardValue card false)).sum

/-- `endRound(state, winnerIndex)` (multiplayer copy, lines 1186–1229):
set the winner and `ROUND_OVER`, decide `isRemik` from the winner's
*current* `hasOpened`, apply −20/−10 to the winner and (doubled on a
Remik) hand penalties to the others, eliminate players at the points
limit, and move to `GAME_OVER` when at most one player remains. -/
def endRound (s : GameState) (winnerIndex : Option Nat) : GameState :=
  let s := { s with roundWinner := winnerIndex, phase := .ROUND_OVER }
  let isRemik :=
    match winnerIndex with
    | none => false
    | some w =>
      match s.players.get? w with
      | some p => !p.hasOpened
      | none => false
  let players := s.players.mapIdx (fun i p =>
    if some i = winnerIndex then
      { p with score := p.score + (if isRemik then -20 else -10) }
    else
      let penalty := handPenalty p.hand
      let penalty := if isRemik then penalty * 2 else penalty
      { p with score := p.score + penalty })
  let pointsLimit :=
    if s.config.POINTS_LIMIT = 0 then 501 else s.config.POINTS_LIMIT
  let players := players.map (fun p =>
    if pointsLimit ≤ p.score then { p with eliminated := true } else p)
  let s := { s with players := players }
  let activePlayers : List Player := s.players.filter (fun p => !p.eliminated)
  if activePlayers.length ≤ 1 then { s with phase := Phase.GAME_OVER } else s

/-- The `while` loop of `advanceTurn`, skipping eliminated players; the
fuel bounds the walk at one full cycle, after which the source loop is
back at `current` and stops. -/
def nextActive (players : List Player) (current : Nat) :
    Nat → Nat → Nat
  | 0, next => next
  | fuel + 1, next =>
    let eliminated :=
      match players.get? next with
      | some p => p.eliminated
      | none => false
    if eliminated && decide (next ≠ current) then
      nextActive players current fuel ((next + 1) % players.length)
    else next

/-- `advanceTurn(state)`: next non-eliminated player, back to `DRAW`,
clear the drawn-card tracking. -/
def advanceTurn (s : GameState) : GameState :=
  let numPlayers := s.players.length
  let next := nextActive s.players s.currentPlayerIndex numPlayers
    ((s.currentPlayerIndex + 1) % numPlayers)
  { s with currentPlayerIndex := next, phase := .DRAW,
           drawnFromDiscard := false, drawnCard := none }

/-- `reshuffleIfNeeded(state)` (lines 1254–1268): when the stock is empty
and more than one discard remains, bump the reshuffle counter; a second
depletion ends the round, otherwise the discard pile minus its top card
is shuffled into a fresh stock. -/
def reshuffleIfNeeded (shuffle : List Card → List Card) (s : GameState) :
    GameState :=
  if s.stock.length = 0 ∧ 1 < s.discardPile.length then
    let s := { s with stockReshuffleCount := s.stockReshuffleCount + 1 }
    if 2 ≤ s.stockReshuffleCount then endRound s none
    else
      match popLast s.discardPile with
      | none => s
      | some (topDiscard, rest) =>
        { s with stock := shuffle rest, discardPile := [topDiscard] }
  else s

/-- `drawFromStock(state)` (lines 870–896): in the `DRAW` phase, reshuffle
if needed; an empty stock afterwards ends the round and reports a
failure; otherwise the top stock card moves to the hand and the phase
becomes `MELD`. -/
def drawFromStock (shuffle : List Card → List Card) (s : GameState) :
    MoveResult × GameState :=
  if s.phase ≠ .DRAW then (.failure .notDrawPhase, s)
  else
    let s := reshuffleIfNeeded shuffle s
    if s.stock.length = 0 then (.failure .stockExhausted, endRound s none)
    else
      match s.players.get? s.currentPlayerIndex with
      | none => (.failure .badPlayerIndex, s)
      | some player =>
        match popLast s.stock with
        | none => (.failure .stockExhausted, endRound s none)
        | some (card, rest) =>
          let s := setPlayer { s with stock := rest } s.currentPlayerIndex
            { player with hand := player.hand ++ [card] }
          let s := { s with drawnFromDiscard := false,
                            drawnCard := some card, phase := .MELD }
          (.success (some card), s)

/-- `drawFromDiscard(state)` (lines 904–925). -/
def drawFromDiscard (s : GameState) : MoveResult × GameState :=
  if s.phase ≠ .DRAW then (.failure .notDrawPhase, s)
  else if s.discardPile.length = 0 then (.failure .discardPileEmpty, s)
  else
    match s.players.get? s.currentPlayerIndex with
    | none => (.failure .badPlayerIndex, s)
    | some player =>
      match popLast s.discardPile with
      | none => (.failure .discardPileEmpty, s)
      | some (card, rest) =>
        let s := setPlayer { s with discardPile := rest }
          s.currentPlayerIndex
          { player with hand := player.hand ++ [card] }
        let s := { s with drawnFromDiscard := true,
                          drawnCard := some card, phase := .MELD }
        (.success (some card), s)

/-- `playMelds(state, meldCardIds)` (multiplayer copy, lines 933–992):
resolve ids against the hand (silently dropping unknown ids), validate
each meld, check or auto-grant the opening, move the cards to the table,
and end the round when the hand empties.  This copy performs no
drawn-from-discard check. -/
def playMelds (s : GameState) (meldCardIds : List (List Nat)) :
    MoveResult × GameState :=
  if s.phase ≠ .MELD then (.failure .notMeldPhase, s)
  else
    let playerIdx := s.currentPlayerIndex
    match s.players.get? playerIdx with
    | none => (.failure .badPlayerIndex, s)
    | some player =>
      let melds := meldCardIds.map (fun ids =>
        ids.filterMap (fun id => player.hand.find? (fun c => c.id == id)))
      match firstInvalidMeld 0 melds with
      | some i => (.failure (.meldNotValid i), s)
      | none =>
        let openingCheck :
            Option FailReason × Bool :=  -- (failure?, hasOpened afterwards)
          if !player.hasOpened ∧ s.config.REQUIRE_OPENING then
            match isValidOpening melds s.config.OPEN_REQUIREMENT with
            | .invalid r => (some (.openingRejected r), player.hasOpened)
            | .valid => (none, true)
          else if !player.hasOpened ∧ !s.config.REQUIRE_OPENING then
            (none, true)
          else (none, player.hasOpened)
        match openingCheck with
        | (some r, _) => (.failure r, s)
        | (none, opened) =>
          let allMeldCardIds := (melds.flatten).map (fun c => c.id)
          let newHand :=
            player.hand.filter (fun c => !allMeldCardIds.contains c.id)
          let s := setPlayer s playerIdx
            { player with hand := newHand, hasOpened := opened }
          let newTableMelds := s.tableMelds ++
            melds.map (fun meld => ({ cards := meld, owner := playerIdx } : TableMeld))
          let s := { s with tableMelds := newTableMelds }
          if newHand.length = 0 then
            (.success none, endRound s (some playerIdx))
          else (.success none, s)

/-- `addToTableMeld(state, tableMeldIndex, cardIds, position)`
(lines 1002–1049). -/
def addToTableMeld (s : GameState) (tableMeldIndex : Nat)
    (cardIds : List Nat) (position : MeldPos) : MoveResult × GameState :=
  if s.phase ≠ .MELD then (.failure .notMeldPhase, s)
  else
    let playerIdx := s.currentPlayerIndex
    match s.players.get? playerIdx with
    | none => (.failure .badPlayerIndex, s)
    | some player =>
      if !player.hasOpened then (.failure .mustOpenFirst, s)
      else
        match s.tableMelds.get? tableMeldIndex with
        | none => (.failure .invalidMeldIndex, s)
        | some tm =>
          let cards :=
            cardIds.filterMap (fun id =>
              player.hand.find? (fun c => c.id == id))
          if cards.length ≠ cardIds.length then
            (.failure .someCardsNotInHand, s)
          else if !canExtendMeld tm.cards cards position then
            (.failure .cannotExtend, s)
          else
            let newMeldCards :=
              match position with
              | .posStart => cards ++ tm.cards
              | .posEnd => tm.cards ++ cards
            let s := { s with tableMelds :=
              s.tableMelds.set tableMeldIndex ({ tm with cards := newMeldCards }) }
            let newHand :=
              player.hand.filter (fun c => !cardIds.contains c.id)
            let s := setPlayer s playerIdx { player with hand := newHand }
            if newHand.length = 0 then
              (.success none, endRound s (some playerIdx))
            else (.success none, s)

/-- `swapJoker(state, tableMeldIndex, jokerPositionInMeld, cardId)`
(lines 1061–1109): exchange a natural hand card against a joker sitting
on a table meld; the substituted meld must remain valid, and the joker
returns to the swapper's hand. -/
def swapJoker (s : GameState) (tableMeldIndex jokerPositionInMeld : Nat)
    (cardId : Nat) : MoveResult × GameState :=
  if s.phase ≠ .MELD then (.failure .notMeldPhase, s)
  else
    let playerIdx := s.currentPlayerIndex
    match s.players.get? playerIdx with
    | none => (.failure .badPlayerIndex, s)
    | some player =>
      if !player.hasOpened then (.failure .mustOpenFirst, s)
      else if s.tableMelds.length ≤ tableMeldIndex then
        (.failure .invalidMeldIndex, s)
      else
        match s.tableMelds.get? tableMeldIndex with
        | none => (.failure .invalidMeldIndex, s)
        | some tm =>
          match tm.cards.get? jokerPositionInMeld with
          | none => (.failure .noJokerAtPosition, s)
          | some jokerCard =>
            if !jokerCard.isJoker then (.failure .noJokerAtPosition, s)
            else
              match player.hand.find? (fun c => c.id == cardId) with
              | none => (.failure .cardNotInHand, s)
              | some handCard =>
                if handCard.isJoker then (.failure .jokerForJoker, s)
                else
                  let testMeld := tm.cards.set jokerPositionInMeld handCard
                  if classifyMeld testMeld = none then
                    (.failure .jokerMismatch, s)
                  else
                    let newTableMelds := s.tableMelds.set tableMeldIndex
                      { tm with cards := testMeld }
                    let s := { s with tableMelds := newTableMelds }
                    let newHand :=
                      (player.hand.filter (fun c => c.id ≠ cardId)) ++
                        [jokerCard]
                    let s := setPlayer s playerIdx
                      { player with hand := newHand }
                    (.success none, s)

/-- `discard(state, cardId)` (multiplayer copy, lines 1117–1149): legal in
the `MELD` or `DISCARD` phase; removes the card from the hand onto the
discard pile; an emptied hand ends the round, otherwise the turn
advances.  No check against the just-drawn discard card is performed. -/
def discard (s : GameState) (cardId : Nat) : MoveResult × GameState :=
  if s.phase ≠ .MELD ∧ s.phase ≠ .DISCARD then
    (.failure .notMeldOrDiscardPhase, s)
  else
    let playerIdx := s.currentPlayerIndex
    match s.players.get? playerIdx with
    | none => (.failure .badPlayerIndex, s)
    | some player =>
      match player.hand.find? (fun c => c.id == cardId) with
      | none => (.failure .cardNotInHand, s)
      | some card =>
        let newHand := player.hand.eraseP (fun c => c.id == cardId)
        let s := setPlayer s playerIdx { player with hand := newHand }
        let s := { s with discardPile := s.discardPile ++ [card] }
        if newHand.length = 0 then
          (.success none, endRound s (some playerIdx))
        else (.success none, advanceTurn s)

/-- `skipMeld(state)` (lines 1155–1160): in the `MELD` phase, move
straight to `DISCARD`; otherwise do nothing. -/
def skipMeld (s : GameState) : GameState :=
  if s.phase = .MELD then { s with phase := .DISCARD } else s

/-- The card-conservation measure: `|stock| + |discard| + Σ|hands| +
Σ|meld.cards|`. -/
def totalCards (s : GameState) : Nat :=
  s.stock.length + s.discardPile.length +
    (s.players.map (fun p => p.hand.length)).sum +
    (s.tableMelds.map (fun m => m.cards.length)).sum

/-! ## Specification-side predicates

These re-state the specification's wording, to be compared with the
source-derived functions above. -/

/-- The sorted ace-low rank indices of a natural-card list. -/
def sortedLowRanks (naturals : List Card) : List Int :=
  List.insertionSort (· ≤ ·) (naturals.map (fun c => rankIndex c.rank))

/-- The sorted ace-high rank indices of a natural-card list. -/
def sortedHighRanks (naturals : List Card) : List Int :=
  List.insertionSort (· ≤ ·) (naturals.map (fun c => aceHighIndex c.rank))

/-- Specification wording of the slot-fitting search: with
`span = max − min` and `total = naturals + jokers`, `span < total` must
hold and some start position in
`[firstNaturalRank − jokerCount, firstNaturalRank]` must give a block
`[start, start+total−1]` inside `[lo, hi]` containing every natural
rank. -/
def fitWindowSpec (sorted : List Int) (jokerCount : Nat) (lo hi : Int) :
    Prop :=
  match sorted with
  | [] => False
  | r0 :: rest =>
    let total : Int := (rest.length + 1 : Nat) + (jokerCount : Int)
    let span : Int := (r0 :: rest).getLastD r0 - r0
    span < total ∧
    ∃ start : Int,
      r0 - (jokerCount : Int) ≤ start ∧ start ≤ r0 ∧
      lo ≤ start ∧ start + total - 1 ≤ hi ∧
      ∀ r ∈ (r0 :: rest), start ≤ r ∧ r ≤ start + total - 1

/-- Specification wording of sequence validity: at least 3 cards, at
least one natural, one shared suit, no repeated natural rank, joker count
at most naturals+1, and the slot-fitting search succeeds in the ace-low
window `[0,12]` or the ace-high window `[1,13]`. -/
def isSequenceSpec (cards : List Card) : Prop :=
  let naturals := cards.filter (fun c => !c.isJoker)
  let jokerCount := cards.length - naturals.length
  3 ≤ cards.length ∧
  naturals ≠ [] ∧
  (∃ su, ∀ c ∈ naturals, c.suit = su) ∧
  (naturals.map (fun c => c.rank)).Nodup ∧
  jokerCount ≤ naturals.length + 1 ∧
  (fitWindowSpec (sortedLowRanks naturals) jokerCount 0 12 ∨
    fitWindowSpec (sortedHighRanks naturals) jokerCount 1 13)

/-- Three consecutive indices are all present. -/
def tripleIn (idxs : List Int) : Prop :=
  ∃ r ∈ idxs, r + 1 ∈ idxs ∧ r + 2 ∈ idxs

/-- Specification wording of the pure sub-run: three or more natural
cards at consecutive rank indices under the ace-low or the ace-high
interpretation. -/
def pureRunSpec (naturals : List Card) : Prop :=
  tripleIn (naturals.map (fun c => rankIndex c.rank)) ∨
    tripleIn (naturals.map (fun c => aceHighIndex c.rank))

instance (idxs : List Int) : Decidable (tripleIn idxs) := by
  unfold tripleIn; infer_instance

instance (l : List Card) : Decidable (pureRunSpec l) := by
  unfold pureRunSpec; infer_instance

/-- Specification wording of opening validity: every meld classifies,
some meld is a sequence with a pure sub-run among its naturals, and the
points reach the requirement. -/
def openSpecValid (melds : List (List Card)) (req : Int) : Prop :=
  (∀ m ∈ melds, classifyMeld m ≠ none) ∧
  (∃ m ∈ melds, isValidSequence m = true ∧
    pureRunSpec (m.filter (fun c => !c.isJoker))) ∧
  req ≤ calculateMeldsPoints melds

/-- Specification wording of the failure ordering: the first invalid
meld, else the missing pure sub-run, else insufficient points. -/
def specOpenResult (melds : List (List Card)) (req : Int) : OpeningResult :=
  match melds.findIdx? (fun m => decide (classifyMeld m = none)) with
  | some i => .invalid (.invalidMeld (i + 1))
  | none =>
    if melds.any (fun m => isValidSequence m &&
        decide (pureRunSpec (m.filter (fun c => !c.isJoker)))) then
      if calculateMeldsPoints melds < req then
        .invalid (.insufficientPoints req (calculateMeldsPoints melds))
      else .valid
    else .invalid .missingPureRun

/-- Specification wording of the card point table: A=11, number cards
face value, court cards 10, joker 50 (the `JOKER` rank is the sentinel
carried by jokers themselves). -/
def specBaseValue : Rank → Int
  | .rA => 11
  | .r2 => 2 | .r3 => 3 | .r4 => 4 | .r5 => 5 | .r6 => 6 | .r7 => 7
  | .r8 => 8 | .r9 => 9 | .r10 => 10
  | .rJ => 10 | .rQ => 10 | .rK => 10
  | .rJOKER => 50

/-- Specification wording of the low-ace exception: the meld is a valid
sequence whose natural cards fit only the ace-low window `[0,12]` and not
the ace-high window `[1,13]`. -/
def meldLowOnlySpec (meld : List Card) : Prop :=
  let naturals := meld.filter (fun c => !c.isJoker)
  let jokerCount := meld.length - naturals.length
  isValidSequence meld = true ∧
  canFitInRange (sortedLowRanks naturals) jokerCount 0 12 = true ∧
  canFitInRange (sortedHighRanks naturals) jokerCount 1 13 = false

instance (meld : List Card) : Decidable (meldLowOnlySpec meld) := by
  unfold meldLowOnlySpec; infer_instance

/-- Specification wording of a card's opening-points value inside a given
meld. -/
def specOpeningValue (meld : List Card) (card : Card) : Int :=
  if card.isJoker then 50
  else if card.rank = .rA ∧ meldLowOnlySpec meld then 1
  else specBaseValue card.rank

/-- Specification wording of a card's round-end penalty value: the Ace
always counts 11 here. -/
def specPenaltyValue (card : Card) : Int :=
  if card.isJoker then 50 else specBaseValue card.rank

/-! ## Concrete states used by the counterexample theorems -/

/-- A natural card. -/
def mkCard (i : Nat) (r : Rank) (s : Suit) : Card :=
  { id := i, rank := r, suit := s, isJoker := false }

/-- A joker card. -/
def mkJoker (i : Nat) : Card :=
  { id := i, rank := .rJOKER, suit := .noSuit, isJoker := true }

/-- A mid-round `MELD`-phase state: the already-opened current player
holds exactly the run 10♠ J♠ Q♠. -/
def conservationBugState : GameState :=
  { players :=
      [{ hand := [mkCard 1 .r10 .spades, mkCard 2 .rJ .spades,
                  mkCard 3 .rQ .spades],
         hasOpened := true, score := 0, eliminated := false },
       { hand := [mkCard 7 .r5 .hearts],
         hasOpened := false, score := 0, eliminated := false }],
    stock := [mkCard 8 .r2 .clubs], discardPile := [mkCard 9 .r3 .clubs],
    tableMelds := [], currentPlayerIndex := 0, phase := .MELD,
    roundNumber := 1, startingPlayerIndex := 0, stockReshuffleCount := 0,
    drawnFromDiscard := false, drawnCard := none, roundWinner := none,
    config := defaultConfig }

/-- A `DRAW`-phase state with an empty stock and an empty discard pile. -/
def exhaustedStockState : GameState :=
  { players :=
      [{ hand := [mkCard 1 .r5 .hearts],
         hasOpened := false, score := 0, eliminated := false },
       { hand := [mkCard 2 .r6 .hearts],
         hasOpened := false, score := 0, eliminated := false }],
    stock := [], discardPile := [], tableMelds := [],
    currentPlayerIndex := 0, phase := .DRAW, roundNumber := 1,
    startingPlayerIndex := 0, stockReshuffleCount := 0,
    drawnFromDiscard := false, drawnCard := none, roundWinner := none,
    config := defaultConfig }

/-- A `MELD`-phase state where the not-yet-opened current player holds
exactly a 54-point opening (10♠ J♠ Q♠ and 8♦ 8♣ 8♥). -/
def remikBugState : GameState :=
  { players :=
      [{ hand := [mkCard 1 .r10 .spades, mkCard 2 .rJ .spades,
                  mkCard 3 .rQ .spades, mkCard 4 .r8 .diamonds,
                  mkCard 5 .r8 .clubs, mkCard 6 .r8 .hearts],
         hasOpened := false, score := 0, eliminated := false },
       { hand := [mkCard 7 .r5 .hearts],
         hasOpened := false, score := 0, eliminated := false }],
    stock := [mkCard 8 .r2 .clubs], discardPile := [mkCard 9 .r3 .clubs],
    tableMelds := [], currentPlayerIndex := 0, phase := .MELD,
    roundNumber := 1, startingPlayerIndex := 0, stockReshuffleCount := 0,
    drawnFromDiscard := false, drawnCard := none, roundWinner := none,
    config := defaultConfig }

/-- A `MELD`-phase state where the current player has just drawn 5♥ from
the discard pile and still holds it. -/
def drawnDiscardState : GameState :=
  { players :=
      [{ hand := [mkCard 1 .r5 .hearts, mkCard 2 .r6 .hearts],
         hasOpened := false, score := 0, eliminated := false },
       { hand := [mkCard 3 .r7 .hearts],
         hasOpened := false, score := 0, eliminated := false }],
    stock := [mkCard 8 .r2 .clubs], discardPile := [mkCard 9 .r3 .clubs],
    tableMelds := [], currentPlayerIndex := 0, phase := .MELD,
    roundNumber := 1, startingPlayerIndex := 0, stockReshuffleCount := 0,
    drawnFromDiscard := true, drawnCard := some (mkCard 1 .r5 .hearts),
    roundWinner := none, config := defaultConfig }

/-- A card selection containing a joker whose id collides with a natural
card's id. -/
def jokerIdCollisionSelection : List Card :=
  [mkCard 1 .r5 .hearts, mkCard 2 .r6 .hearts, mkCard 3 .r7 .hearts,
   mkJoker 1]

/-! ## Claim theorems: concrete counterexamples and failing inputs -/

/-- C1 (failing input): `playMelds` accepts the same three card ids listed
in two melds at once; the call succeeds and the card-conservation measure
grows from 6 to 9 — the three spades now sit in two table melds while the
hand lost them only once. -/
theorem playMelds_duplicate_ids_break_conservation :
    (playMelds conservationBugState [[1, 2, 3], [1, 2, 3]]).1 =
      .success none ∧
    totalCards conservationBugState = 6 ∧
    totalCards (playMelds conservationBugState [[1, 2, 3], [1, 2, 3]]).2 =
      9 := by
  decide

/-- C2 (counterexample): in the `DRAW` phase with an empty stock and an
empty discard pile, `drawFromStock` returns `success=false` yet has ended
the round — the phase moves to `ROUND_OVER` and every player's score
changes, so the state is not left identical on failure. -/
theorem drawFromStock_failure_mutates_state :
    (drawFromStock id exhaustedStockState).1 = .failure .stockExhausted ∧
    exhaustedStockState.phase = .DRAW ∧
    (drawFromStock id exhaustedStockState).2.phase = .ROUND_OVER ∧
    (exhaustedStockState.players.map (fun p => p.score)) = [0, 0] ∧
    ((drawFromStock id exhaustedStockState).2.players.map
      (fun p => p.score)) = [5, 6] := by
  decide

/-- C4 (counterexample): on the permuted run 6♥ 5♥ 7♥ the offline client
classifier answers `'sequence'` while the trusted server classifier
answers invalid — the server's copy is order-sensitive. -/
theorem classifyMeld_client_server_diverge :
    classifyMeld [mkCard 1 .r6 .hearts, mkCard 2 .r5 .hearts,
      mkCard 3 .r7 .hearts] = some .sequence ∧
    serverClassifyMeld [mkCard 1 .r6 .hearts, mkCard 2 .r5 .hearts,
      mkCard 3 .r7 .hearts] = none := by
  decide

/-- C5 (counterexample): on the empty meld list every meld (vacuously)
classifies, so the first violated condition among the claim's three is
the missing pure sub-run; the code instead returns the dedicated
`'You must play at least one meld to open.'` reason. -/
theorem isValidOpening_empty_melds_reason :
    isValidOpening [] 51 = .invalid .mustPlayMeld ∧
    (∀ m ∈ ([] : List (List Card)), classifyMeld m ≠ none) ∧
    OpenReason.mustPlayMeld ≠ OpenReason.missingPureRun := by
  exact ⟨by decide, by simp, by decide⟩

/-- C6 (failing input): a player who has never opened plays a valid
54-point opening and empties their hand in the same `playMelds` call.
`playMelds` set `hasOpened` before `endRound` read it, so the round is
scored as a plain win (−10, opponent penalty 5) although the player had
not opened in any prior turn — the spec (and the source's own comment)
calls this a Remik (−20, doubled penalties). -/
theorem open_and_go_out_scored_as_non_remik :
    (remikBugState.players.map (fun p => p.hasOpened)) = [false, false] ∧
    (playMelds remikBugState [[1, 2, 3], [4, 5, 6]]).1 = .success none ∧
    (playMelds remikBugState [[1, 2, 3], [4, 5, 6]]).2.roundWinner =
      some 0 ∧
    ((playMelds remikBugState [[1, 2, 3], [4, 5, 6]]).2.players.map
      (fun p => p.score)) = [-10, 5] := by
  decide

/-- C8 (failing input): the current player drew 5♥ from the discard pile
this turn and still holds it; `discard` nevertheless accepts discarding
that very card and ends the turn (next player, `DRAW` phase) without the
card ever having been used in a meld. -/
theorem discard_accepts_just_drawn_discard_card :
    drawnDiscardState.drawnFromDiscard = true ∧
    drawnDiscardState.drawnCard = some (mkCard 1 .r5 .hearts) ∧
    (discard drawnDiscardState 1).1 = .success none ∧
    (discard drawnDiscardState 1).2.currentPlayerIndex = 1 ∧
    (discard drawnDiscardState 1).2.phase = .DRAW ∧
    (discard drawnDiscardState 1).2.discardPile.getLast? =
      some (mkCard 1 .r5 .hearts) := by
  decide

/-- C10 (counterexample): a selection containing a joker whose id equals
a used natural card's id is auto-split successfully — the joker is
silently dropped instead of forcing a `null` result. -/
theorem autoSplitMelds_joker_id_collision :
    (jokerIdCollisionSelection.any (fun c => c.isJoker)) = true ∧
    autoSplitMelds jokerIdCollisionSelection =
      some [[mkCard 1 .r5 .hearts, mkCard 2 .r6 .hearts,
             mkCard 3 .r7 .hearts]] := by
  decide

/-! ## Helper lemmas -/
theorem mem_firstDedup [DecidableEq α] {x : α} {l : List α} :
    x ∈ firstDedup l ↔ x ∈ l := by
  induction l with
  | nil => simp [firstDedup]
  | cons a t ih =>
    simp only [firstDedup, List.mem_cons, List.mem_filter, ih]
    by_cases hx : x = a <;> simp [hx]

theorem firstDedup_sublist [DecidableEq α] (l : List α) :
    (firstDedup l).Sublist l := by
  induction l with
  | nil => simp [firstDedup]
  | cons a t ih =>
    exact List.Sublist.cons₂ a (((firstDedup t).filter_sublist).trans ih)

theorem firstDedup_nodup [DecidableEq α] (l : List α) :
    (firstDedup l).Nodup := by
  induction l with
  | nil => simp [firstDedup]
  | cons a t ih =>
    refine List.nodup_cons.2 ⟨?_, ih.filter _⟩
    intro ha
    have h2 := (List.mem_filter.1 ha).2
    simp at h2

theorem firstDedup_eq_self [DecidableEq α] {l : List α} (h : l.Nodup) :
    firstDedup l = l := by
  induction l with
  | nil => rfl
  | cons a t ih =>
    rcases List.nodup_cons.1 h with ⟨ha, ht⟩
    rw [firstDedup, ih ht, List.filter_eq_self.2]
    intro x hx
    have hne : x ≠ a := fun h => ha (h ▸ hx)
    simpa using hne

theorem firstDedup_length_eq_iff [DecidableEq α] {l : List α} :
    (firstDedup l).length = l.length ↔ l.Nodup := by
  constructor
  · intro h
    rw [← (firstDedup_sublist l).eq_of_length h]
    exact firstDedup_nodup l
  · intro h
    rw [firstDedup_eq_self h]

theorem firstDedup_length_le_one_iff [DecidableEq α] {a : α} {t : List α} :
    (firstDedup (a :: t)).length ≤ 1 ↔ ∀ y ∈ t, y = a := by
  have h1 : ∀ n : Nat, n + 1 ≤ 1 ↔ n = 0 := fun n => by omega
  simp only [firstDedup, List.length_cons, h1, List.length_eq_zero,
    List.filter_eq_nil_iff]
  constructor
  · intro h y hy
    by_contra hne
    exact (h y (mem_firstDedup.2 hy)) (by simpa using hne)
  · intro h y hy
    simpa using h y (mem_firstDedup.1 hy)

theorem length_filter_not_add_length_filter (l : List Card) :
    (l.filter (fun c => !c.isJoker)).length +
      (l.filter (fun c => c.isJoker)).length = l.length := by
  induction l with
  | nil => rfl
  | cons a t ih =>
    by_cases h : a.isJoker = true <;> simp [List.filter_cons, h] <;> omega

theorem isValidGroup_char (cards : List Card) :
    isValidGroup cards = true ↔
      3 ≤ cards.length ∧ cards.length ≤ 4 ∧
      (cards.filter fun c => !c.isJoker) ≠ [] ∧
      (cards.filter fun c => c.isJoker).length ≤
        (cards.filter fun c => !c.isJoker).length ∧
      (∃ r, ∀ c ∈ (cards.filter fun c => !c.isJoker), c.rank = r) ∧
      ((cards.filter fun c => !c.isJoker).map fun c => c.suit).Nodup := by
  have hadd := length_filter_not_add_length_filter cards
  unfold isValidGroup
  dsimp only
  by_cases hguard : (decide (cards.length < 3) || decide (4 < cards.length)) = true
  · rw [if_pos hguard]
    simp only [Bool.or_eq_true, decide_eq_true_eq] at hguard
    simp only [Bool.false_eq_true, false_iff]
    rintro ⟨h3, h4, -⟩
    rcases hguard with h | h <;> omega
  · rw [if_neg hguard]
    simp only [Bool.or_eq_true, decide_eq_true_eq, not_or, not_lt] at hguard
    rcases hnat : cards.filter (fun c => !c.isJoker) with _ | ⟨n0, rest⟩
    · rw [hnat] at hadd ⊢
      simp
    · rw [hnat] at hadd ⊢
      dsimp only
      by_cases hcnt : (n0 :: rest).length < cards.length - (n0 :: rest).length
      · rw [if_pos hcnt]
        simp only [Bool.false_eq_true, false_iff]
        rintro ⟨-, -, -, hj, -⟩
        omega
      · rw [if_neg hcnt]
        by_cases hrank : ((n0 :: rest).all fun c => decide (c.rank = n0.rank)) = true
        · rw [if_neg (by simp [hrank])]
          by_cases hsuit : ((firstDedup ((n0 :: rest).map fun c => c.suit)).length ≠
              ((n0 :: rest).map fun c => c.suit).length)
          · rw [if_pos hsuit]
            simp only [Bool.false_eq_true, false_iff]
            rintro ⟨-, -, -, -, -, hnd⟩
            exact hsuit (firstDedup_length_eq_iff.2 hnd)
          · rw [if_neg hsuit]
            simp only [not_not] at hsuit
            simp only [true_iff]
            refine ⟨hguard.1, hguard.2, by simp, by omega, ⟨n0.rank, ?_⟩,
              firstDedup_length_eq_iff.1 hsuit⟩
            intro c hc
            simpa using (List.all_eq_true.1 hrank) c hc
        · rw [if_pos (by simp [hrank])]
          simp only [Bool.false_eq_true, false_iff]
          rintro ⟨-, -, -, -, ⟨r, hr⟩, -⟩
          apply hrank
          rw [List.all_eq_true]
          intro c hc
          have h0 := hr n0 (List.mem_cons_self _ _)
          have hcr := hr c hc
          simp [hcr, h0]

theorem serverIsValidGroup_char (cards : List Card) :
    serverIsValidGroup cards = true ↔
      3 ≤ cards.length ∧ cards.length ≤ 4 ∧
      (cards.filter fun c => !c.isJoker) ≠ [] ∧
      (cards.filter fun c => c.isJoker).length ≤
        (cards.filter fun c => !c.isJoker).length ∧
      (∃ r, ∀ c ∈ (cards.filter fun c => !c.isJoker), c.rank = r) ∧
      ((cards.filter fun c => !c.isJoker).map fun c => c.suit).Nodup := by
  unfold serverIsValidGroup
  dsimp only
  by_cases hguard : (decide (cards.length < 3) || decide (4 < cards.length)) = true
  · rw [if_pos hguard]
    simp only [Bool.or_eq_true, decide_eq_true_eq] at hguard
    simp only [Bool.false_eq_true, false_iff]
    rintro ⟨h3, h4, -⟩
    rcases hguard with h | h <;> omega
  · rw [if_neg hguard]
    simp only [Bool.or_eq_true, decide_eq_true_eq, not_or, not_lt] at hguard
    rcases hnat : cards.filter (fun c => !c.isJoker) with _ | ⟨n0, rest⟩
    · rw [hnat]
      simp
    · rw [hnat]
      dsimp only
      simp only [List.map_cons]
      by_cases hcnt : (n0 :: rest).length <
          (cards.filter fun c => c.isJoker).length
      · rw [if_pos hcnt]
        simp only [Bool.false_eq_true, false_iff]
        rintro ⟨-, -, -, hj, -⟩
        omega
      · rw [if_neg hcnt]
        by_cases hrank :
            1 < (firstDedup (n0.rank :: rest.map fun c => c.rank)).length
        · rw [if_pos hrank]
          simp only [Bool.false_eq_true, false_iff]
          rintro ⟨-, -, -, -, ⟨r, hr⟩, -⟩
          have hall : ∀ y ∈ rest.map (fun c => c.rank), y = n0.rank := by
            intro y hy
            obtain ⟨c, hc, rfl⟩ := List.mem_map.1 hy
            rw [hr c (List.mem_cons_of_mem _ hc),
              hr n0 (List.mem_cons_self _ _)]
          have hle := firstDedup_length_le_one_iff.2 hall
          omega
        · rw [if_neg hrank]
          have hlenmap : (rest.map (fun c => c.suit)).length = rest.length :=
            List.length_map _ _
          by_cases hsuit :
              (firstDedup (n0.suit :: rest.map fun c => c.suit)).length ≠
                (n0 :: rest).length
          · rw [if_pos hsuit]
            simp only [Bool.false_eq_true, false_iff]
            rintro ⟨-, -, -, -, -, hnd⟩
            have heq := firstDedup_length_eq_iff.2 hnd
            simp only [List.map_cons] at heq
            simp only [List.length_cons] at heq hsuit ⊢
            omega
          · rw [if_neg hsuit]
            simp only [not_not] at hsuit
            simp only [true_iff]
            have hnd : (n0.suit :: rest.map fun c => c.suit).Nodup := by
              apply firstDedup_length_eq_iff.1
              simp only [List.length_cons] at hsuit ⊢
              omega
            refine ⟨hguard.1, hguard.2, by simp, by omega, ⟨n0.rank, ?_⟩, ?_⟩
            · intro c hc
              have hle : (firstDedup (n0.rank :: rest.map fun c => c.rank)).length ≤ 1 := by
                omega
              have hall := firstDedup_length_le_one_iff.1 hle
              rcases List.mem_cons.1 hc with rfl | hc
              · rfl
              · exact hall c.rank (List.mem_map_of_mem _ hc)
            · simpa using hnd

/-- C4 (amended): the client's and the server's group validators are
extensionally equal. -/
theorem isValidGroup_client_eq_server (cards : List Card) :
    isValidGroup cards = serverIsValidGroup cards := by
  rw [Bool.eq_iff_iff, isValidGroup_char, serverIsValidGroup_char]

theorem pointValue_eq_specBaseValue (r : Rank) :
    pointValue r = specBaseValue r := by
  cases r <;> rfl

theorem isMeldLowAce_iff_of_mem_ace {meld : List Card} {card : Card}
    (hc : card ∈ meld) (hj : card.isJoker = false) (hr : card.rank = .rA) :
    isMeldLowAce meld = true ↔ meldLowOnlySpec meld := by
  unfold isMeldLowAce meldLowOnlySpec sortedLowRanks sortedHighRanks
  dsimp only
  have hany : ((meld.filter (fun c => !c.isJoker)).any
      (fun c => decide (c.rank = .rA))) = true := by
    rw [List.any_eq_true]
    exact ⟨card, List.mem_filter.2 ⟨hc, by simp [hj]⟩, by simp [hr]⟩
  simp only [hany, Bool.not_true, Bool.false_eq_true, if_false]
  by_cases hseq : isValidSequence meld = true
  · simp only [hseq, Bool.not_true, Bool.false_eq_true, if_false,
      Bool.and_eq_true, Bool.not_eq_true', true_and]
  · simp only [Bool.not_eq_true] at hseq
    simp [hseq]

/-- C7: opening points value every card A=11 / face / 10 / 50 except an
Ace in a low-only sequence meld (worth 1), while the round-end hand
penalty values every Ace at 11 with no exception. -/
theorem points_ace_valuation :
    (∀ melds : List (List Card), calculateMeldsPoints melds =
      (melds.map (fun meld => (meld.map (specOpeningValue meld)).sum)).sum) ∧
    (∀ hand : List Card, handPenalty hand =
      (hand.map specPenaltyValue).sum) := by
  constructor
  · intro melds
    unfold calculateMeldsPoints
    congr 1
    apply List.map_congr_left
    intro meld _
    dsimp only
    congr 1
    apply List.map_congr_left
    intro card hcard
    by_cases hj : card.isJoker = true
    · simp [getCardValue, specOpeningValue, hj]
    · have hj' : card.isJoker = false := by simpa using hj
      by_cases hr : card.rank = .rA
      · have hiff := isMeldLowAce_iff_of_mem_ace hcard hj' hr
        by_cases hlow : isMeldLowAce meld = true
        · have hspec : meldLowOnlySpec meld := hiff.1 hlow
          simp [getCardValue, specOpeningValue, hj', hr, hlow, hspec]
        · have hspec : ¬ meldLowOnlySpec meld := fun h => hlow (hiff.2 h)
          simp only [Bool.not_eq_true] at hlow
          simp [getCardValue, specOpeningValue, hj', hr, hlow, hspec,
            pointValue, specBaseValue]
      · simp [getCardValue, specOpeningValue, hj', hr,
          pointValue_eq_specBaseValue]
  · intro hand
    unfold handPenalty
    congr 1
    apply List.map_congr_left
    intro card _
    by_cases hj : card.isJoker = true
    · simp [getCardValue, specPenaltyValue, hj]
    · have hj' : card.isJoker = false := by simpa using hj
      simp [getCardValue, specPenaltyValue, hj',
        pointValue_eq_specBaseValue]

theorem listMax_lt_iff {m x : Int} {xs : List Int} :
    listMax x xs < m ↔ x < m ∧ ∀ y ∈ xs, y < m := by
  unfold listMax
  induction xs generalizing x with
  | nil => simp
  | cons a t ih =>
    rw [List.foldl_cons, ih]
    simp only [max_lt_iff, List.mem_cons]
    constructor
    · rintro ⟨⟨hx, ha⟩, ht⟩
      exact ⟨hx, fun y hy => by rcases hy with rfl | hy; exacts [ha, ht y hy]⟩
    · rintro ⟨hx, hall⟩
      exact ⟨⟨hx, hall a (Or.inl rfl)⟩, fun y hy => hall y (Or.inr hy)⟩

theorem lt_listMin_iff {m x : Int} {xs : List Int} :
    m < listMin x xs ↔ m < x ∧ ∀ y ∈ xs, m < y := by
  unfold listMin
  induction xs generalizing x with
  | nil => simp
  | cons a t ih =>
    rw [List.foldl_cons, ih]
    simp only [lt_min_iff, List.mem_cons]
    constructor
    · rintro ⟨⟨hx, ha⟩, ht⟩
      exact ⟨hx, fun y hy => by rcases hy with rfl | hy; exacts [ha, ht y hy]⟩
    · rintro ⟨hx, hall⟩
      exact ⟨⟨hx, hall a (Or.inl rfl)⟩, fun y hy => hall y (Or.inr hy)⟩

theorem listMax_lt_listMin_iff (f : Card → Int) (e0 w0 : Card)
    (eRest wRest : List Card) :
    listMax (f e0) (eRest.map f) < listMin (f w0) (wRest.map f) ↔
      ∀ e ∈ e0 :: eRest, ∀ w ∈ w0 :: wRest, f e < f w := by
  rw [lt_listMin_iff]
  constructor
  · rintro ⟨h0, hrest⟩ e he w hw
    have hmax : listMax (f e0) (eRest.map f) < f w := by
      rcases List.mem_cons.1 hw with rfl | hw
      · exact h0
      · exact hrest (f w) (List.mem_map_of_mem f hw)
    rw [listMax_lt_iff] at hmax
    rcases List.mem_cons.1 he with rfl | he
    · exact hmax.1
    · exact hmax.2 (f e) (List.mem_map_of_mem f he)
  · intro h
    constructor
    · rw [listMax_lt_iff]
      refine ⟨h e0 (List.mem_cons_self _ _) w0 (List.mem_cons_self _ _), ?_⟩
      intro y hy
      obtain ⟨e, he, rfl⟩ := List.mem_map.1 hy
      exact h e (List.mem_cons_of_mem _ he) w0 (List.mem_cons_self _ _)
    · intro y hy
      obtain ⟨w, hw, rfl⟩ := List.mem_map.1 hy
      rw [listMax_lt_iff]
      refine ⟨h e0 (List.mem_cons_self _ _) w (List.mem_cons_of_mem _ hw), ?_⟩
      intro z hz
      obtain ⟨e, he, rfl⟩ := List.mem_map.1 hz
      exact h e (List.mem_cons_of_mem _ he) w (List.mem_cons_of_mem _ hw)

/-- Specification wording of the directionality requirement: the new
naturals' ranks lie strictly beyond the existing naturals' range in the
direction of `position`, under the low or the high interpretation. -/
def beyondSpec (position : MeldPos) (existingNaturals newNaturals : List Card) :
    Prop :=
  match position with
  | .posEnd =>
    (∀ e ∈ existingNaturals, ∀ w ∈ newNaturals,
      rankIndex e.rank < rankIndex w.rank) ∨
    (∀ e ∈ existingNaturals, ∀ w ∈ newNaturals,
      aceHighIndex e.rank < aceHighIndex w.rank)
  | .posStart =>
    (∀ e ∈ existingNaturals, ∀ w ∈ newNaturals,
      rankIndex w.rank < rankIndex e.rank) ∨
    (∀ e ∈ existingNaturals, ∀ w ∈ newNaturals,
      aceHighIndex w.rank < aceHighIndex e.rank)

/-- C9: `canExtendMeld` accepts only when the combined cards classify as
a valid meld, and — when the combined meld is a sequence and both sides
have naturals — only when the new naturals lie strictly beyond the
existing naturals' range in the direction of `position` under at least
one ace interpretation; on the table meld 5♥ 6♥ 7♥ the extension [8♥] is
accepted at the end and rejected at the start. -/
theorem canExtendMeld_spec :
    (∀ existingMeld newCards position,
      canExtendMeld existingMeld newCards position = true →
        classifyMeld (combinedMeld position existingMeld newCards) ≠ none ∧
        (isValidSequence (combinedMeld position existingMeld newCards) = true →
          existingMeld.filter (fun c => !c.isJoker) ≠ [] →
          newCards.filter (fun c => !c.isJoker) ≠ [] →
          beyondSpec position (existingMeld.filter (fun c => !c.isJoker))
            (newCards.filter (fun c => !c.isJoker)))) ∧
    canExtendMeld [mkCard 1 .r5 .hearts, mkCard 2 .r6 .hearts,
      mkCard 3 .r7 .hearts] [mkCard 4 .r8 .hearts] .posEnd = true ∧
    canExtendMeld [mkCard 1 .r5 .hearts, mkCard 2 .r6 .hearts,
      mkCard 3 .r7 .hearts] [mkCard 4 .r8 .hearts] .posStart = false := by
  refine ⟨?_, by decide, by decide⟩
  intro ex new pos h
  unfold canExtendMeld at h
  dsimp only at h
  by_cases hcl : classifyMeld (combinedMeld pos ex new) = none
  · rw [if_pos hcl] at h
    exact absurd h (by simp)
  · rw [if_neg hcl] at h
    refine ⟨hcl, ?_⟩
    intro hseq hex hnew
    rw [if_pos hseq] at h
    rcases hfe : ex.filter (fun c => !c.isJoker) with _ | ⟨e0, eRest⟩
    · exact absurd hfe hex
    rcases hfn : new.filter (fun c => !c.isJoker) with _ | ⟨w0, wRest⟩
    · exact absurd hfn hnew
    rw [hfe, hfn] at h
    rw [hfe, hfn]
    dsimp only at h
    cases pos with
    | posEnd =>
      rw [Bool.or_eq_true, decide_eq_true_eq, decide_eq_true_eq] at h
      unfold beyondSpec
      rcases h with h | h
      · exact Or.inl ((listMax_lt_listMin_iff _ _ _ _ _).1 h)
      · exact Or.inr ((listMax_lt_listMin_iff _ _ _ _ _).1 h)
    | posStart =>
      rw [Bool.or_eq_true, decide_eq_true_eq, decide_eq_true_eq] at h
      unfold beyondSpec
      rcases h with h | h
      · left
        intro e he w hw
        exact (listMax_lt_listMin_iff (fun c => rankIndex c.rank)
          w0 e0 wRest eRest).1 h w hw e he
      · right
        intro e he w hw
        exact (listMax_lt_listMin_iff (fun c => aceHighIndex c.rank)
          w0 e0 wRest eRest).1 h w hw e he

theorem canExtendMeld_spec_witness :
    classifyMeld (combinedMeld .posEnd
      [mkCard 1 .r5 .hearts, mkCard 2 .r6 .hearts, mkCard 3 .r7 .hearts]
      [mkCard 4 .r8 .hearts]) ≠ none :=
  (canExtendMeld_spec.1 _ _ .posEnd (by decide)).1

theorem drawFromStock_fail_atomic (shuffle : List Card → List Card)
    (s : GameState) (r : FailReason) :
    (drawFromStock shuffle s).1 = .failure r →
    r ≠ .stockExhausted → r ≠ .badPlayerIndex →
    (drawFromStock shuffle s).2 = s := by
  unfold drawFromStock
  split
  · intro _ _ _; rfl
  · dsimp only
    split
    · intro h hse _
      exact absurd (MoveResult.failure.inj h).symm hse
    · split
      · intro h _ hbp
        exact absurd (MoveResult.failure.inj h).symm hbp
      · split
        · intro h hse _
          exact absurd (MoveResult.failure.inj h).symm hse
        · intro h _ _
          exact absurd h (by simp)

theorem drawFromDiscard_fail_atomic (s : GameState) (r : FailReason) :
    (drawFromDiscard s).1 = .failure r → (drawFromDiscard s).2 = s := by
  unfold drawFromDiscard
  split
  · intro _; rfl
  · split
    · intro _; rfl
    · split
      · intro _; rfl
      · split
        · intro _; rfl
        · intro h; exact absurd h (by simp)

theorem playMelds_fail_atomic (s : GameState) (ids : List (List Nat))
    (r : FailReason) :
    (playMelds s ids).1 = .failure r → (playMelds s ids).2 = s := by
  unfold playMelds
  dsimp only
  split
  · intro _; rfl
  · split
    · intro _; rfl
    · split
      · intro _; rfl
      · split
        · intro _; rfl
        · split
          · intro h; exact absurd h (by simp)
          · intro h; exact absurd h (by simp)

theorem addToTableMeld_fail_atomic (s : GameState) (i : Nat)
    (ids : List Nat) (pos : MeldPos) (r : FailReason) :
    (addToTableMeld s i ids pos).1 = .failure r →
    (addToTableMeld s i ids pos).2 = s := by
  unfold addToTableMeld
  dsimp only
  split
  · intro _; rfl
  · split
    · intro _; rfl
    · split
      · intro _; rfl
      · split
        · intro _; rfl
        · split
          · intro _; rfl
          · split
            · intro _; rfl
            · split
              · intro h; exact absurd h (by simp)
              · intro h; exact absurd h (by simp)

theorem swapJoker_fail_atomic (s : GameState) (i j cid : Nat)
    (r : FailReason) :
    (swapJoker s i j cid).1 = .failure r → (swapJoker s i j cid).2 = s := by
  unfold swapJoker
  dsimp only
  split
  · intro _; rfl
  · split
    · intro _; rfl
    · split
      · intro _; rfl
      · split
        · intro _; rfl
        · split
          · intro _; rfl
          · split
            · intro _; rfl
            · split
              · intro _; rfl
              · split
                · intro _; rfl
                · split
                  · intro _; rfl
                  · split
                    · intro _; rfl
                    · intro h; exact absurd h (by simp)

theorem discard_fail_atomic (s : GameState) (cid : Nat) (r : FailReason) :
    (discard s cid).1 = .failure r → (discard s cid).2 = s := by
  unfold discard
  dsimp only
  split
  · intro _; rfl
  · split
    · intro _; rfl
    · split
      · intro _; rfl
      · split
        · intro h; exact absurd h (by simp)
        · intro h; exact absurd h (by simp)

/-- C2 (amended): every mutating entry point leaves the state unchanged
on a returned failure, except `drawFromStock`, whose stock-exhausted path
ends the round before returning `success=false` (the `badPlayerIndex`
reason models an out-of-contract player index that would throw in the
source). -/
theorem failure_atomicity :
    (∀ (shuffle : List Card → List Card) (s : GameState) (r : FailReason),
      (drawFromStock shuffle s).1 = .failure r →
      r ≠ .stockExhausted → r ≠ .badPlayerIndex →
      (drawFromStock shuffle s).2 = s) ∧
    (∀ (s : GameState) (r : FailReason),
      (drawFromDiscard s).1 = .failure r → (drawFromDiscard s).2 = s) ∧
    (∀ (s : GameState) (ids : List (List Nat)) (r : FailReason),
      (playMelds s ids).1 = .failure r → (playMelds s ids).2 = s) ∧
    (∀ (s : GameState) (i : Nat) (ids : List Nat) (pos : MeldPos)
      (r : FailReason),
      (addToTableMeld s i ids pos).1 = .failure r →
      (addToTableMeld s i ids pos).2 = s) ∧
    (∀ (s : GameState) (i j cid : Nat) (r : FailReason),
      (swapJoker s i j cid).1 = .failure r → (swapJoker s i j cid).2 = s) ∧
    (∀ (s : GameState) (cid : Nat) (r : FailReason),
      (discard s cid).1 = .failure r → (discard s cid).2 = s) :=
  ⟨drawFromStock_fail_atomic, drawFromDiscard_fail_atomic,
   playMelds_fail_atomic, addToTableMeld_fail_atomic,
   swapJoker_fail_atomic, discard_fail_atomic⟩

theorem failure_atomicity_witness :
    (discard exhaustedStockState 1).2 = exhaustedStockState :=
  failure_atomicity.2.2.2.2.2 exhaustedStockState 1
    .notMeldOrDiscardPhase (by decide)

theorem extractRunsGo_subset (idx : Card → Int) (prev : Card)
    (run : List Card) (t : List Card) :
    ∀ run' ∈ extractRunsGo idx prev run t, ∀ c ∈ run', c ∈ run ∨ c ∈ t := by
  induction t generalizing prev run with
  | nil =>
    intro run' hr c hc
    unfold extractRunsGo at hr
    split at hr
    · rcases List.mem_singleton.1 hr with rfl
      exact Or.inl hc
    · exact absurd hr (List.not_mem_nil _)
  | cons d rest ih =>
    intro run' hr c hc
    unfold extractRunsGo at hr
    split at hr
    · rcases ih d (run ++ [d]) run' hr c hc with h | h
      · rcases List.mem_append.1 h with h | h
        · exact Or.inl h
        · exact Or.inr (List.mem_cons.2 (Or.inl (List.mem_singleton.1 h)))
      · exact Or.inr (List.mem_cons_of_mem _ h)
    · rcases List.mem_append.1 hr with h | h
      · split at h
        · rcases List.mem_singleton.1 h with rfl
          exact Or.inl hc
        · exact absurd h (List.not_mem_nil _)
      · rcases ih d [d] run' h c hc with h' | h'
        · exact Or.inr (List.mem_cons.2 (Or.inl (List.mem_singleton.1 h')))
        · exact Or.inr (List.mem_cons_of_mem _ h')

theorem extractConsecutiveRunsLow_subset (l : List Card) :
    ∀ run ∈ extractConsecutiveRunsLow l, ∀ c ∈ run, c ∈ l := by
  intro run hr c hc
  unfold extractConsecutiveRunsLow at hr
  match l, hr with
  | c0 :: rest, hr =>
    rcases extractRunsGo_subset _ c0 [c0] rest run hr c hc with h | h
    · exact (List.mem_singleton.1 h) ▸ List.mem_cons_self _ _
    · exact List.mem_cons_of_mem _ h

theorem extractConsecutiveRunsHigh_subset (l : List Card) :
    ∀ run ∈ extractConsecutiveRunsHigh l, ∀ c ∈ run, c ∈ l := by
  intro run hr c hc
  unfold extractConsecutiveRunsHigh at hr
  dsimp only at hr
  have hr' := List.mem_filter.1 hr
  rcases hs : List.insertionSort
      (fun a b => aceHighIndex a.rank ≤ aceHighIndex b.rank) l
    with _ | ⟨c0, rest⟩
  · rw [hs] at hr'
    exact absurd hr'.1 (List.not_mem_nil _)
  · rw [hs] at hr'
    have hmem : c ∈ c0 :: rest := by
      rcases extractRunsGo_subset _ c0 [c0] rest run hr'.1 c hc with h | h
      · exact (List.mem_singleton.1 h) ▸ List.mem_cons_self _ _
      · exact List.mem_cons_of_mem _ h
    rw [← hs] at hmem
    exact (List.mem_insertionSort _).1 hmem

theorem dedupBySuit_subset (l : List Card) :
    ∀ c ∈ dedupBySuit l, c ∈ l := by
  induction l with
  | nil => intro c hc; exact absurd hc (List.not_mem_nil _)
  | cons a t ih =>
    intro c hc
    rcases List.mem_cons.1 hc with rfl | hc
    · exact List.mem_cons_self _ _
    · exact List.mem_cons_of_mem _ (ih c (List.mem_of_mem_filter hc))

theorem extractGroups_subset (cards : List Card) :
    ∀ g ∈ extractGroups cards, ∀ c ∈ g, c ∈ cards := by
  intro g hg c hc
  unfold extractGroups at hg
  obtain ⟨rank, -, hsome⟩ := List.mem_filterMap.1 hg
  dsimp only at hsome
  split at hsome
  · rcases Option.some.inj hsome with rfl
    exact List.mem_of_mem_filter
      (dedupBySuit_subset _ c hc)
  · exact absurd hsome (by simp)

/-- Invariant carried through the split strategies: every used id belongs
to some card of `naturals`, and every collected meld draws its cards from
`naturals`. -/
def AccInv (naturals : List Card) (acc : SplitAcc) : Prop :=
  (∀ id ∈ acc.used, ∃ c ∈ naturals, c.id = id) ∧
  (∀ m ∈ acc.melds, ∀ c ∈ m, c ∈ naturals)

theorem addRuns_inv {naturals : List Card} {acc : SplitAcc}
    {runs : List (List Card)}
    (hruns : ∀ run ∈ runs, ∀ c ∈ run, c ∈ naturals)
    (hacc : AccInv naturals acc) : AccInv naturals (addRuns acc runs) := by
  unfold addRuns
  induction runs generalizing acc with
  | nil => exact hacc
  | cons run rest ih =>
    rw [List.foldl_cons]
    refine ih (fun r hr => hruns r (List.mem_cons_of_mem _ hr)) ?_
    dsimp only
    split
    · constructor
      · intro id hid
        rcases List.mem_append.1 hid with h | h
        · exact hacc.1 id h
        · obtain ⟨c, hc, rfl⟩ := List.mem_map.1 h
          exact ⟨c, hruns run (List.mem_cons_self _ _) c hc, rfl⟩
      · intro m hm c hc
        rcases List.mem_append.1 hm with h | h
        · exact hacc.2 m h c hc
        · rcases List.mem_singleton.1 h with rfl
          exact hruns m (List.mem_cons_self _ _) c hc
    · exact hacc

theorem addSuitRuns_inv {naturals N : List Card} {acc : SplitAcc}
    (hN : ∀ c ∈ N, c ∈ naturals) (suit : Suit)
    (hacc : AccInv naturals acc) :
    AccInv naturals (addSuitRuns N acc suit) := by
  unfold addSuitRuns
  dsimp only
  have hsuitCards : ∀ c ∈ N.filter (fun c => decide (c.suit = suit)),
      c ∈ naturals := fun c hc => hN c (List.mem_of_mem_filter hc)
  refine addRuns_inv ?_ (addRuns_inv ?_ hacc)
  · intro run hr c hc
    exact hsuitCards c (List.mem_of_mem_filter
      (extractConsecutiveRunsHigh_subset _ run hr c hc))
  · intro run hr c hc
    have := extractConsecutiveRunsLow_subset _ run hr c hc
    exact hsuitCards c ((List.mem_insertionSort _).1 this)

theorem addGroups_inv {naturals : List Card} {acc : SplitAcc}
    {groups : List (List Card)}
    (hgroups : ∀ g ∈ groups, ∀ c ∈ g, c ∈ naturals)
    (hacc : AccInv naturals acc) :
    AccInv naturals (addGroups acc groups) := by
  unfold addGroups
  induction groups generalizing acc with
  | nil => exact hacc
  | cons g rest ih =>
    rw [List.foldl_cons]
    refine ih (fun r hr => hgroups r (List.mem_cons_of_mem _ hr)) ?_
    constructor
    · intro id hid
      rcases List.mem_append.1 hid with h | h
      · exact hacc.1 id h
      · obtain ⟨c, hc, rfl⟩ := List.mem_map.1 h
        exact ⟨c, hgroups g (List.mem_cons_self _ _) c hc, rfl⟩
    · intro m hm c hc
      rcases List.mem_append.1 hm with h | h
      · exact hacc.2 m h c hc
      · rcases List.mem_singleton.1 h with rfl
        exact hgroups m (List.mem_cons_self _ _) c hc

theorem foldl_addSuitRuns_inv {naturals N : List Card}
    (hN : ∀ c ∈ N, c ∈ naturals) (keys : List Suit) {acc : SplitAcc}
    (hacc : AccInv naturals acc) :
    AccInv naturals (keys.foldl (addSuitRuns N) acc) := by
  induction keys generalizing acc with
  | nil => exact hacc
  | cons k rest ih =>
    rw [List.foldl_cons]
    exact ih (addSuitRuns_inv hN k hacc)

theorem split_checks_none {cards : List Card} {acc : SplitAcc} {j : Card}
    (hj : j ∈ cards) (hjk : j.isJoker = true)
    (hid : ∀ n ∈ cards, n.isJoker = false → n.id ≠ j.id)
    (hinv : AccInv (cards.filter (fun c => !c.isJoker)) acc) :
    (if (((cards.filter (fun c => !c.isJoker)).filter
        (fun c => !acc.used.contains c.id)).length ≠ 0) then none
     else if (((cards.filter (fun c => c.isJoker)).filter
        (fun jk => !acc.used.contains jk.id)).length ≠ 0) then none
     else if acc.melds.length ≠ 0 then some acc.melds else none) =
      (none : Option (List (List Card))) := by
  have hjmem : j ∈ cards.filter (fun c => c.isJoker) :=
    List.mem_filter.2 ⟨hj, by simp [hjk]⟩
  have hnotused : acc.used.contains j.id = false := by
    by_contra hcontra
    have hmem : j.id ∈ acc.used := by
      rw [← List.elem_iff]
      simpa using hcontra
    obtain ⟨c, hc, hcid⟩ := hinv.1 _ hmem
    have hcn := List.mem_filter.1 hc
    exact hid c hcn.1 (by simpa using hcn.2) hcid
  by_cases h1 : (((cards.filter (fun c => !c.isJoker)).filter
      (fun c => !acc.used.contains c.id)).length ≠ 0)
  · rw [if_pos h1]
  · rw [if_neg h1]
    have hjin : j ∈ (cards.filter (fun c => c.isJoker)).filter
        (fun jk => !acc.used.contains jk.id) :=
      List.mem_filter.2 ⟨hjmem, by
        simp only [Bool.not_eq_true']
        exact hnotused⟩
    have h2 : (((cards.filter (fun c => c.isJoker)).filter
        (fun jk => !acc.used.contains jk.id)).length ≠ 0) := by
      have := List.length_pos.2 (List.ne_nil_of_mem hjin)
      omega
    rw [if_pos h2]

theorem split_checks_some {acc : SplitAcc} {u v : List Card}
    {result : List (List Card)}
    (h : (if (u.length ≠ 0) then none
          else if (v.length ≠ 0) then none
          else if acc.melds.length ≠ 0 then some acc.melds else none) =
        some result) :
    result = acc.melds := by
  split at h
  · exact absurd h (by simp)
  · split at h
    · exact absurd h (by simp)
    · split at h
      · exact (Option.some.inj h).symm
      · exact absurd h (by simp)

theorem accInv_nil (naturals : List Card) :
    AccInv naturals ⟨[], []⟩ :=
  ⟨fun _ h => absurd h (List.not_mem_nil _),
   fun _ h => absurd h (List.not_mem_nil _)⟩

theorem trySplitSequencesFirst_inv (cards : List Card) :
    AccInv (cards.filter (fun c => !c.isJoker))
      (addGroups
        ((firstDedup ((cards.filter (fun c => !c.isJoker)).map
            (fun c => c.suit))).foldl
          (addSuitRuns (cards.filter (fun c => !c.isJoker))) ⟨[], []⟩)
        (extractGroups ((cards.filter (fun c => !c.isJoker)).filter
          (fun c => !(((firstDedup ((cards.filter (fun c => !c.isJoker)).map
              (fun c => c.suit))).foldl
            (addSuitRuns (cards.filter (fun c => !c.isJoker)))
            ⟨[], []⟩).used.contains c.id))))) := by
  refine addGroups_inv ?_
    (foldl_addSuitRuns_inv (fun c hc => hc) _ (accInv_nil _))
  intro g hg c hc
  exact List.mem_of_mem_filter (extractGroups_subset _ g hg c hc)

theorem trySplitGroupsFirst_inv (cards : List Card) :
    AccInv (cards.filter (fun c => !c.isJoker))
      ((firstDedup (((cards.filter (fun c => !c.isJoker)).filter
          (fun c => !((addGroups ⟨[], []⟩
            (extractGroups (cards.filter (fun c => !c.isJoker)))).used.contains
              c.id))).map (fun c => c.suit))).foldl
        (addSuitRuns ((cards.filter (fun c => !c.isJoker)).filter
          (fun c => !((addGroups ⟨[], []⟩
            (extractGroups (cards.filter (fun c => !c.isJoker)))).used.contains
              c.id))))
        (addGroups ⟨[], []⟩
          (extractGroups (cards.filter (fun c => !c.isJoker))))) := by
  refine foldl_addSuitRuns_inv (fun c hc => List.mem_of_mem_filter hc) _
    (addGroups_inv ?_ (accInv_nil _))
  intro g hg c hc
  exact extractGroups_subset _ g hg c hc

/-- C10 (amended): `autoSplitMelds` never places a joker — any input
containing a joker whose id differs from every natural card's id yields
`null`, and every meld of a non-null result consists of natural cards
only. -/
theorem autoSplitMelds_spec :
    (∀ (cards : List Card) (j : Card), j ∈ cards → j.isJoker = true →
      (∀ n ∈ cards, n.isJoker = false → n.id ≠ j.id) →
      autoSplitMelds cards = none) ∧
    (∀ (cards : List Card) (result : List (List Card)),
      autoSplitMelds cards = some result →
      ∀ m ∈ result, ∀ c ∈ m, c.isJoker = false) := by
  have hseqNone : ∀ (cards : List Card) (j : Card), j ∈ cards →
      j.isJoker = true → (∀ n ∈ cards, n.isJoker = false → n.id ≠ j.id) →
      trySplitSequencesFirst cards = none := by
    intro cards j hj hjk hid
    unfold trySplitSequencesFirst
    dsimp only
    exact split_checks_none hj hjk hid (trySplitSequencesFirst_inv cards)
  have hgrpNone : ∀ (cards : List Card) (j : Card), j ∈ cards →
      j.isJoker = true → (∀ n ∈ cards, n.isJoker = false → n.id ≠ j.id) →
      trySplitGroupsFirst cards = none := by
    intro cards j hj hjk hid
    unfold trySplitGroupsFirst
    dsimp only
    exact split_checks_none hj hjk hid (trySplitGroupsFirst_inv cards)
  constructor
  · intro cards j hj hjk hid
    unfold autoSplitMelds
    rw [hseqNone cards j hj hjk hid, hgrpNone cards j hj hjk hid]
  · intro cards result h m hm c hc
    unfold autoSplitMelds at h
    have natural : c ∈ cards.filter (fun c => !c.isJoker) → c.isJoker = false := by
      intro hcn
      simpa using (List.mem_filter.1 hcn).2
    rcases hs : trySplitSequencesFirst cards with _ | r1
    · rw [hs] at h
      rcases hg : trySplitGroupsFirst cards with _ | r2
      · rw [hg] at h
        exact absurd h (by simp)
      · rw [hg] at h
        rcases Option.some.inj h with rfl
        unfold trySplitGroupsFirst at hg
        dsimp only at hg
        have hres := split_checks_some hg
        apply natural
        exact (trySplitGroupsFirst_inv cards).2 m (hres ▸ hm) c hc
    · rw [hs] at h
      rcases Option.some.inj h with rfl
      unfold trySplitSequencesFirst at hs
      dsimp only at hs
      have hres := split_checks_some hs
      apply natural
      exact (trySplitSequencesFirst_inv cards).2 m (hres ▸ hm) c hc

theorem autoSplitMelds_spec_witness :
    autoSplitMelds [mkCard 1 .r5 .hearts, mkCard 2 .r6 .hearts,
      mkCard 3 .r7 .hearts, mkJoker 9] = none :=
  autoSplitMelds_spec.1 _ (mkJoker 9) (by decide) (by decide) (by decide)

theorem tripleIn_nil : ¬ tripleIn [] := by
  rintro ⟨r, hr, -⟩
  exact absurd hr (List.not_mem_nil _)

/-- Under sortedness, a triple in `x :: rest` either starts at the head
value (its successors lying in the tail) or lies entirely in the tail. -/
theorem tripleIn_cons_iff {x : Int} {rest : List Int}
    (hs : List.Sorted (· ≤ ·) (x :: rest)) :
    tripleIn (x :: rest) ↔
      (x + 1 ∈ rest ∧ x + 2 ∈ rest) ∨ tripleIn rest := by
  have hbound : ∀ y ∈ rest, x ≤ y := (List.sorted_cons.1 hs).1
  constructor
  · rintro ⟨r, hr, h1, h2⟩
    by_cases hrx : r = x
    · subst hrx
      have h1' : r + 1 ∈ rest := by
        rcases List.mem_cons.1 h1 with h | h
        · omega
        · exact h
      have h2' : r + 2 ∈ rest := by
        rcases List.mem_cons.1 h2 with h | h
        · omega
        · exact h
      exact Or.inl ⟨h1', h2'⟩
    · have hrrest : r ∈ rest := by
        rcases List.mem_cons.1 hr with h | h
        · exact absurd h hrx
        · exact h
      have hxr : x ≤ r := hbound r hrrest
      have h1' : r + 1 ∈ rest := by
        rcases List.mem_cons.1 h1 with h | h
        · omega
        · exact h
      have h2' : r + 2 ∈ rest := by
        rcases List.mem_cons.1 h2 with h | h
        · omega
        · exact h
      exact Or.inr ⟨r, hrrest, h1', h2'⟩
  · rintro (⟨h1, h2⟩ | ⟨r, hr, h1, h2⟩)
    · exact ⟨x, List.mem_cons_self _ _, List.mem_cons_of_mem _ h1,
        List.mem_cons_of_mem _ h2⟩
    · exact ⟨r, List.mem_cons_of_mem _ hr, List.mem_cons_of_mem _ h1,
        List.mem_cons_of_mem _ h2⟩

/-- The two walk invariants of `longestRunAux` on a sorted tail: with a
current run of length 2 ending at `prev`, the walk succeeds iff `prev+1`
occurs ahead or a full triple lies ahead; with a run of length 1, iff
both `prev+1` and `prev+2` occur ahead or a full triple lies ahead. -/
theorem longestRunAux_iff {t : List Int} :
    ∀ prev : Int, List.Sorted (· ≤ ·) (prev :: t) →
      (longestRunAux 2 prev t = true ↔ (prev + 1 ∈ t ∨ tripleIn t)) ∧
      (longestRunAux 1 prev t = true ↔
        ((prev + 1 ∈ t ∧ prev + 2 ∈ t) ∨ tripleIn t)) := by
  induction t with
  | nil =>
    intro prev _
    constructor <;>
      simp [longestRunAux, tripleIn_nil, List.not_mem_nil]
  | cons x rest ih =>
    intro prev hsort
    have hcons := List.sorted_cons.1 hsort
    have hpx : prev ≤ x := hcons.1 x (List.mem_cons_self _ _)
    have hsx : List.Sorted (· ≤ ·) (x :: rest) := hcons.2
    have hxrest : ∀ y ∈ rest, x ≤ y := (List.sorted_cons.1 hsx).1
    have ihx := ih x hsx
    have hF2 := tripleIn_cons_iff hsx
    by_cases h1 : x = prev + 1
    · -- the next element continues the run
      have hx : (x == prev + 1) = true := by simp [h1]
      have hx1 : x + 1 = prev + 2 := by omega
      constructor
      · unfold longestRunAux
        rw [hx]
        simp only [if_true]
        rw [if_pos (by omega : 2 + 1 ≥ 3)]
        simp only [true_iff]
        exact Or.inl (List.mem_cons.2 (Or.inl h1.symm))
      · unfold longestRunAux
        rw [hx]
        simp only [if_true]
        rw [if_neg (by omega : ¬ 1 + 1 ≥ 3)]
        rw [ihx.1]
        constructor
        · rintro (hp2 | htr)
          · exact Or.inl ⟨List.mem_cons.2 (Or.inl h1.symm),
              List.mem_cons_of_mem _ (hx1 ▸ hp2)⟩
          · exact Or.inr (hF2.2 (Or.inr htr))
        · rintro (⟨-, hp2⟩ | htr)
          · rcases List.mem_cons.1 hp2 with h | h
            · omega
            · exact Or.inl (hx1.symm ▸ h)
          · rcases hF2.1 htr with ⟨ha, -⟩ | htr'
            · exact Or.inl ha
            · exact Or.inr htr'
    · have hx : (x == prev + 1) = false := by simp [h1]
      by_cases h2 : x = prev
      · -- duplicate element, run unchanged
        have hxp : ¬ (x ≠ prev) := by simpa using h2
        subst h2
        constructor
        · unfold longestRunAux
          rw [hx]
          simp only [Bool.false_eq_true, if_false]
          rw [if_neg hxp, ihx.1]
          constructor
          · rintro (hp1 | htr)
            · exact Or.inl (List.mem_cons_of_mem _ hp1)
            · exact Or.inr (hF2.2 (Or.inr htr))
          · rintro (hp1 | htr)
            · rcases List.mem_cons.1 hp1 with h | h
              · omega
              · exact Or.inl h
            · rcases hF2.1 htr with ⟨ha, -⟩ | htr'
              · exact Or.inl ha
              · exact Or.inr htr'
        · unfold longestRunAux
          rw [hx]
          simp only [Bool.false_eq_true, if_false]
          rw [if_neg hxp, ihx.2]
          constructor
          · rintro (⟨hp1, hp2⟩ | htr)
            · exact Or.inl ⟨List.mem_cons_of_mem _ hp1,
                List.mem_cons_of_mem _ hp2⟩
            · exact Or.inr (hF2.2 (Or.inr htr))
          · rintro (⟨hp1, hp2⟩ | htr)
            · have hp1' : x + 1 ∈ rest := by
                rcases List.mem_cons.1 hp1 with h | h
                · omega
                · exact h
              have hp2' : x + 2 ∈ rest := by
                rcases List.mem_cons.1 hp2 with h | h
                · omega
                · exact h
              exact Or.inl ⟨hp1', hp2'⟩
            · rcases hF2.1 htr with ⟨ha, hb⟩ | htr'
              · exact Or.inl ⟨ha, hb⟩
              · exact Or.inr htr'
      · -- gap: x ≥ prev + 2, run resets to 1
        have hxp : (x ≠ prev) := h2
        have hgap : prev + 2 ≤ x := by omega
        have hnp1 : prev + 1 ∉ x :: rest := by
          intro hmem
          rcases List.mem_cons.1 hmem with h | h
          · omega
          · have := hxrest _ h
            omega
        have hbridge : tripleIn (x :: rest) ↔
            ((x + 1 ∈ rest ∧ x + 2 ∈ rest) ∨ tripleIn rest) := hF2
        constructor
        · unfold longestRunAux
          rw [hx]
          simp only [Bool.false_eq_true, if_false]
          rw [if_pos hxp, ihx.2]
          constructor
          · intro h
            exact Or.inr (hbridge.2 h)
          · rintro (hp1 | htr)
            · exact absurd hp1 hnp1
            · exact hbridge.1 htr
        · unfold longestRunAux
          rw [hx]
          simp only [Bool.false_eq_true, if_false]
          rw [if_pos hxp, ihx.2]
          constructor
          · intro h
            exact Or.inr (hbridge.2 h)
          · rintro (⟨hp1, -⟩ | htr)
            · exact absurd hp1 hnp1
            · exact hbridge.1 htr

theorem longestRun_iff (idxs : List Int) :
    longestRun idxs = true ↔ tripleIn idxs := by
  unfold longestRun
  rcases hs : List.insertionSort (· ≤ ·) idxs with _ | ⟨x, t⟩
  · have hnil : idxs = [] := by
      have hp := List.perm_insertionSort (· ≤ ·) idxs
      rw [hs] at hp
      exact hp.symm.eq_nil
    rw [hnil]
    simp [tripleIn_nil]
  · have hsorted : List.Sorted (· ≤ ·) (x :: t) := by
      rw [← hs]
      exact List.sorted_insertionSort _ _
    have htrip : tripleIn (x :: t) ↔ tripleIn idxs := by
      unfold tripleIn
      constructor <;> rintro ⟨r, hr, h1, h2⟩ <;>
        refine ⟨r, ?_, ?_, ?_⟩ <;>
        first
          | (rw [← hs] at *; exact (List.mem_insertionSort _).1 (by assumption))
          | (rw [← hs]; exact (List.mem_insertionSort _).2 (by assumption))
    rw [(longestRunAux_iff x hsorted).2, ← htrip, tripleIn_cons_iff hsorted]

theorem tripleIn_three_le_length {l : List Int} (h : tripleIn l) :
    3 ≤ l.length := by
  obtain ⟨r, hr, h1, h2⟩ := h
  have hsub : ({r, r + 1, r + 2} : Finset Int) ⊆ l.toFinset := by
    intro y hy
    simp only [Finset.mem_insert, Finset.mem_singleton] at hy
    rcases hy with rfl | rfl | rfl <;> exact List.mem_toFinset.2 (by assumption)
  have hcard : ({r, r + 1, r + 2} : Finset Int).card = 3 := by
    rw [Finset.card_insert_of_not_mem (by
        simp only [Finset.mem_insert, Finset.mem_singleton]
        omega),
      Finset.card_insert_of_not_mem (by
        simp only [Finset.mem_singleton]
        omega),
      Finset.card_singleton]
  calc 3 = ({r, r + 1, r + 2} : Finset Int).card := hcard.symm
    _ ≤ l.toFinset.card := Finset.card_le_card hsub
    _ ≤ l.length := l.toFinset_card_le

theorem hasPureSubRun_iff (naturals : List Card) :
    hasPureSubRun naturals = true ↔ pureRunSpec naturals := by
  unfold hasPureSubRun pureRunSpec
  by_cases hlen : naturals.length < 3
  · rw [if_pos hlen]
    simp only [Bool.false_eq_true, false_iff]
    rintro (h | h) <;>
      · have h3 := tripleIn_three_le_length h
        rw [List.length_map] at h3
        omega
  · rw [if_neg hlen]
    rw [Bool.or_eq_true, longestRun_iff, longestRun_iff]

theorem hasPureSubRun_eq_decide (l : List Card) :
    hasPureSubRun l = decide (pureRunSpec l) := by
  rw [Bool.eq_iff_iff, decide_eq_true_eq]
  exact hasPureSubRun_iff l

theorem firstInvalidMeld_eq_none_iff (i : Nat) (melds : List (List Card)) :
    firstInvalidMeld i melds = none ↔ ∀ m ∈ melds, classifyMeld m ≠ none := by
  induction melds generalizing i with
  | nil => simp [firstInvalidMeld]
  | cons m t ih =>
    unfold firstInvalidMeld
    by_cases hm : classifyMeld m = none
    · rw [if_pos hm]
      simp [hm]
    · rw [if_neg hm]
      rw [ih (i + 1)]
      constructor
      · intro h m' hm'
        rcases List.mem_cons.1 hm' with rfl | hm'
        · exact hm
        · exact h m' hm'
      · intro h m' hm'
        exact h m' (List.mem_cons_of_mem _ hm')

theorem firstInvalidMeld_eq_findIdx (i : Nat) (melds : List (List Card)) :
    firstInvalidMeld i melds =
      (List.findIdx? (fun m => decide (classifyMeld m = none)) melds i).map
        (fun k => k + 1) := by
  induction melds generalizing i with
  | nil => simp [firstInvalidMeld]
  | cons m t ih =>
    unfold firstInvalidMeld
    rw [List.findIdx?_cons]
    by_cases hm : classifyMeld m = none
    · rw [if_pos hm, if_pos (by simp [hm])]
      simp
    · rw [if_neg hm, if_neg (by simp [hm])]
      exact ih (i + 1)

theorem isValidOpening_valid_iff (melds : List (List Card)) (req : Int) :
    isValidOpening melds req = .valid ↔ openSpecValid melds req := by
  unfold isValidOpening openSpecValid
  rcases melds with _ | ⟨m0, rest⟩
  · simp
  · rw [if_neg (by simp)]
    rcases hfi : firstInvalidMeld 0 (m0 :: rest) with _ | k
    · have hall := (firstInvalidMeld_eq_none_iff 0 (m0 :: rest)).1 hfi
      dsimp only
      by_cases hpure : ((m0 :: rest).any fun meld =>
          isValidSequence meld &&
            hasPureSubRun (meld.filter fun c => !c.isJoker)) = true
      · rw [if_neg (by simp [hpure])]
        have hex : ∃ m ∈ m0 :: rest, isValidSequence m = true ∧
            pureRunSpec (m.filter fun c => !c.isJoker) := by
          obtain ⟨m, hm, hb⟩ := List.any_eq_true.1 hpure
          rw [Bool.and_eq_true] at hb
          exact ⟨m, hm, hb.1, (hasPureSubRun_iff _).1 hb.2⟩
        by_cases hpts : calculateMeldsPoints (m0 :: rest) < req
        · rw [if_pos hpts]
          constructor
          · intro h
            exact absurd h (by simp)
          · rintro ⟨-, -, hreq⟩
            omega
        · rw [if_neg hpts]
          constructor
          · intro _
            exact ⟨hall, hex, by omega⟩
          · intro _
            rfl
      · rw [if_pos (by simp [hpure])]
        constructor
        · intro h
          exact absurd h (by simp)
        · rintro ⟨-, ⟨m, hm, hs, hp⟩, -⟩
          apply absurd _ hpure
          rw [List.any_eq_true]
          refine ⟨m, hm, ?_⟩
          rw [Bool.and_eq_true]
          exact ⟨hs, (hasPureSubRun_iff _).2 hp⟩
    · have hsome : ¬ ∀ m ∈ m0 :: rest, classifyMeld m ≠ none := by
        intro hall
        rw [← firstInvalidMeld_eq_none_iff 0 (m0 :: rest)] at hall
        rw [hfi] at hall
        exact absurd hall (by simp)
      constructor
      · intro h
        exact absurd h (by simp)
      · rintro ⟨hall, -⟩
        exact absurd hall hsome

theorem isValidOpening_eq_specOpenResult (melds : List (List Card))
    (req : Int) (hne : melds ≠ []) :
    isValidOpening melds req = specOpenResult melds req := by
  unfold isValidOpening specOpenResult
  rw [if_neg (by simp [hne])]
  rw [firstInvalidMeld_eq_findIdx]
  have hfun : (fun meld => isValidSequence meld &&
      hasPureSubRun (meld.filter fun c => !c.isJoker)) =
      (fun m => isValidSequence m &&
        decide (pureRunSpec (m.filter fun c => !c.isJoker))) := by
    funext m
    rw [hasPureSubRun_eq_decide]
  rcases hfi : List.findIdx?
      (fun m => decide (classifyMeld m = none)) melds with _ | k
  · simp only [Option.map_none']
    rw [hfun]
    by_cases hpure : (melds.any fun m => isValidSequence m &&
        decide (pureRunSpec (m.filter fun c => !c.isJoker))) = true
    · rw [if_neg (by simp [hpure]), if_pos hpure]
    · rw [if_pos (by simp [hpure]), if_neg hpure]
  · simp only [Option.map_some']

/-- The 54-point two-meld opening example 10♠ J♠ Q♠ + 8♦ 8♣ 8♥. -/
def openingExample : List (List Card) :=
  [[mkCard 1 .r10 .spades, mkCard 2 .rJ .spades, mkCard 3 .rQ .spades],
   [mkCard 4 .r8 .diamonds, mkCard 5 .r8 .clubs, mkCard 6 .r8 .hearts]]

/-- The joker-gapped single sequence 4♠ JOKER 6♠ JOKER 8♠. -/
def jokerGapExample : List (List Card) :=
  [[mkCard 1 .r4 .spades, mkJoker 2, mkCard 3 .r6 .spades, mkJoker 4,
    mkCard 5 .r8 .spades]]

/-- C5 (amended): `isValidOpening` accepts exactly when every meld
classifies, some meld is a sequence with a pure natural sub-run, and the
points reach the requirement; on every nonempty meld list the failure
reason follows the order invalid meld → missing pure sub-run →
insufficient points, while the empty list receives its own dedicated
reason; the two examples of the specification evaluate as stated. -/
theorem isValidOpening_spec :
    (∀ (melds : List (List Card)) (req : Int),
      isValidOpening melds req = .valid ↔ openSpecValid melds req) ∧
    (∀ (melds : List (List Card)) (req : Int), melds ≠ [] →
      isValidOpening melds req = specOpenResult melds req) ∧
    (isValidOpening openingExample 51 = .valid ∧
      calculateMeldsPoints openingExample = 54) ∧
    isValidOpening jokerGapExample 51 = .invalid .missingPureRun := by
  refine ⟨isValidOpening_valid_iff, isValidOpening_eq_specOpenResult,
    ⟨by decide, by decide⟩, by decide⟩

theorem isValidOpening_spec_witness :
    isValidOpening openingExample 51 = specOpenResult openingExample 51 :=
  isValidOpening_spec.2.1 openingExample 51 (by decide)

theorem hasAdjDup_eq_false_iff (s : List Int) :
    hasAdjDup s = false ↔ List.Chain' (· ≠ ·) s := by
  induction s with
  | nil => simp [hasAdjDup]
  | cons a t ih =>
    cases t with
    | nil => simp [hasAdjDup]
    | cons b t2 =>
      rw [List.chain'_cons, ← ih]
      show (a == b || hasAdjDup (b :: t2)) = false ↔ _
      rw [Bool.or_eq_false_iff]
      simp [beq_eq_false_iff_ne]

theorem sorted_chain_ne_iff_nodup {s : List Int}
    (hs : List.Sorted (· ≤ ·) s) :
    List.Chain' (· ≠ ·) s ↔ s.Nodup := by
  constructor
  · intro hchain
    induction s with
    | nil => simp
    | cons a t ih =>
      rcases List.sorted_cons.1 hs with ⟨hb, ht⟩
      rcases t with _ | ⟨b, t2⟩
      · simp
      · rw [List.chain'_cons] at hchain
        have hbt : List.Sorted (· ≤ ·) (b :: t2) := ht
        refine List.nodup_cons.2 ⟨?_, ih ht hchain.2⟩
        intro hmem
        have hab : a ≤ b := hb b (List.mem_cons_self _ _)
        have halt : a < b := lt_of_le_of_ne hab hchain.1
        rcases List.mem_cons.1 hmem with rfl | hmem2
        · omega
        · have := (List.sorted_cons.1 hbt).1 a hmem2
          omega
  · intro hnodup
    exact List.Pairwise.chain' hnodup

theorem canFitInRange_iff (s : List Int) (j : Nat) (lo hi : Int) :
    canFitInRange s j lo hi = true ↔
      hasAdjDup s = false ∧ fitWindowSpec s j lo hi := by
  cases s with
  | nil =>
    unfold canFitInRange fitWindowSpec
    simp
  | cons r0 rest =>
    unfold canFitInRange fitWindowSpec
    dsimp only
    by_cases hspan : ((rest.length + 1 : Nat) : Int) + (j : Int) ≤
        (r0 :: rest).getLastD r0 - r0
    · rw [if_pos hspan]
      constructor
      · intro h
        exact absurd h (by simp)
      · rintro ⟨-, hsp, -⟩
        omega
    · rw [if_neg hspan]
      by_cases hdup : hasAdjDup (r0 :: rest) = true
      · rw [if_pos hdup]
        constructor
        · intro h
          exact absurd h (by simp)
        · rintro ⟨hnd, -⟩
          rw [hdup] at hnd
          exact absurd hnd (by simp)
      · rw [if_neg hdup]
        simp only [Bool.not_eq_true] at hdup
        rw [List.any_eq_true]
        constructor
        · rintro ⟨k, hk, hf⟩
          rw [List.mem_range] at hk
          rw [Bool.and_eq_true, Bool.and_eq_true, decide_eq_true_eq,
            decide_eq_true_eq, List.all_eq_true] at hf
          refine ⟨hdup, by omega, r0 - (j : Int) + (k : Int),
            by omega, by omega, hf.1.1, ?_, ?_⟩
          · have := hf.1.2
            omega
          · intro r hr
            have := hf.2 r hr
            rw [Bool.and_eq_true, decide_eq_true_eq, decide_eq_true_eq] at this
            constructor
            · exact this.1
            · have h2 := this.2
              omega
        · rintro ⟨-, hsp, start, hs1, hs2, hs3, hs4, hall⟩
          refine ⟨(start - (r0 - (j : Int))).toNat, ?_, ?_⟩
          · rw [List.mem_range]
            omega
          · have hzeq : r0 - (j : Int) +
                ((start - (r0 - (j : Int))).toNat : Int) = start := by
              omega
            rw [Bool.and_eq_true, Bool.and_eq_true, decide_eq_true_eq,
              decide_eq_true_eq, List.all_eq_true]
            refine ⟨⟨by omega, by omega⟩, ?_⟩
            intro r hr
            rw [Bool.and_eq_true, decide_eq_true_eq, decide_eq_true_eq]
            have := hall r hr
            constructor
            · omega
            · omega

theorem rankIndex_injective : Function.Injective rankIndex := by
  intro a b h
  cases a <;> cases b <;> first | rfl | (exact absurd h (by decide))

theorem aceHighIndex_injective : Function.Injective aceHighIndex := by
  intro a b h
  cases a <;> cases b <;>
    first | rfl | (exact absurd h (by decide))

/-- The adjacent-duplicate scan on the sorted mapped rank indices detects
exactly a repeated rank among the cards, for any injective index map. -/
theorem hasAdjDup_sorted_ranks_iff (naturals : List Card) (f : Rank → Int)
    (hf : Function.Injective f) :
    hasAdjDup (List.insertionSort (· ≤ ·)
        (naturals.map (fun c => f c.rank))) = false ↔
      (naturals.map (fun c => c.rank)).Nodup := by
  rw [hasAdjDup_eq_false_iff,
    sorted_chain_ne_iff_nodup (List.sorted_insertionSort _ _),
    (List.perm_insertionSort (· ≤ ·) _).nodup_iff]
  have hmm : naturals.map (fun c => f c.rank) =
      (naturals.map (fun c => c.rank)).map f := by
    rw [List.map_map]
    rfl
  rw [hmm, List.nodup_map_iff hf]

theorem isValidSequence_iff_spec (cards : List Card) :
    isValidSequence cards = true ↔ isSequenceSpec cards := by
  unfold isValidSequence isSequenceSpec sortedLowRanks sortedHighRanks
  dsimp only
  by_cases hlen : cards.length < 3
  · rw [if_pos hlen]
    constructor
    · intro h
      exact absurd h (by simp)
    · rintro ⟨h3, -⟩
      omega
  · rw [if_neg hlen]
    rcases hnat : cards.filter (fun c => !c.isJoker) with _ | ⟨n0, rest⟩
    · rw [hnat]
      simp
    · rw [hnat]
      dsimp only
      by_cases hsuit : ((n0 :: rest).all fun c => decide (c.suit = n0.suit)) = true
      · rw [if_neg (by simp [hsuit])]
        have hsuitspec : ∃ su, ∀ c ∈ n0 :: rest, c.suit = su :=
          ⟨n0.suit, fun c hc => by
            simpa using List.all_eq_true.1 hsuit c hc⟩
        by_cases hjb : (n0 :: rest).length + 1 <
            cards.length - (n0 :: rest).length
        · rw [if_pos hjb]
          constructor
          · intro h
            exact absurd h (by simp)
          · rintro ⟨-, -, -, -, hbound, -⟩
            omega
        · rw [if_neg hjb]
          rw [Bool.or_eq_true, canFitInRange_iff, canFitInRange_iff]
          have hlow := hasAdjDup_sorted_ranks_iff (n0 :: rest) rankIndex
            rankIndex_injective
          have hhigh := hasAdjDup_sorted_ranks_iff (n0 :: rest) aceHighIndex
            aceHighIndex_injective
          constructor
          · rintro (⟨hd, hfit⟩ | ⟨hd, hfit⟩)
            · exact ⟨by omega, by simp, hsuitspec, hlow.1 hd, by omega,
                Or.inl hfit⟩
            · exact ⟨by omega, by simp, hsuitspec, hhigh.1 hd, by omega,
                Or.inr hfit⟩
          · rintro ⟨-, -, -, hnd, -, hor | hor⟩
            · exact Or.inl ⟨hlow.2 hnd, hor⟩
            · exact Or.inr ⟨hhigh.2 hnd, hor⟩
      · rw [if_pos (by simp [hsuit])]
        constructor
        · intro h
          exact absurd h (by simp)
        · rintro ⟨-, -, ⟨su, hall⟩, -⟩
          exfalso
          apply hsuit
          rw [List.all_eq_true]
          intro c hc
          rw [decide_eq_true_eq, hall c hc, hall n0 (List.mem_cons_self _ _)]

theorem isSequenceSpec_of_perm {cards cards' : List Card}
    (h : cards.Perm cards') (hs : isSequenceSpec cards) :
    isSequenceSpec cards' := by
  unfold isSequenceSpec at hs ⊢
  dsimp only at hs ⊢
  have hnp := h.filter (fun c => !c.isJoker)
  have hlen := h.length_eq
  have hnlen := hnp.length_eq
  have hlowEq : sortedLowRanks (cards.filter (fun c => !c.isJoker)) =
      sortedLowRanks (cards'.filter (fun c => !c.isJoker)) := by
    unfold sortedLowRanks
    refine List.eq_of_perm_of_sorted ?_ (List.sorted_insertionSort _ _)
      (List.sorted_insertionSort _ _)
    exact (List.perm_insertionSort _ _).trans
      ((hnp.map _).trans (List.perm_insertionSort _ _).symm)
  have hhighEq : sortedHighRanks (cards.filter (fun c => !c.isJoker)) =
      sortedHighRanks (cards'.filter (fun c => !c.isJoker)) := by
    unfold sortedHighRanks
    refine List.eq_of_perm_of_sorted ?_ (List.sorted_insertionSort _ _)
      (List.sorted_insertionSort _ _)
    exact (List.perm_insertionSort _ _).trans
      ((hnp.map _).trans (List.perm_insertionSort _ _).symm)
  obtain ⟨h1, h2, ⟨su, hsu⟩, h4, h5, h6⟩ := hs
  refine ⟨by omega, ?_, ⟨su, fun c hc => hsu c (hnp.mem_iff.2 hc)⟩, ?_,
    by omega, ?_⟩
  · intro hnil
    exact h2 ((hnil ▸ hnp).eq_nil)
  · exact ((hnp.map _).nodup_iff).1 h4
  · rw [← hlowEq, ← hhighEq, ← hlen, ← hnlen]
    exact h6

theorem isValidSequence_eq_false_of_many_jokers {cards : List Card}
    (h : (cards.filter (fun c => !c.isJoker)).length + 1 <
      cards.length - (cards.filter (fun c => !c.isJoker)).length) :
    isValidSequence cards = false := by
  unfold isValidSequence
  dsimp only
  by_cases hlen : cards.length < 3
  · rw [if_pos hlen]
  · rw [if_neg hlen]
    rcases hnat : cards.filter (fun c => !c.isJoker) with _ | ⟨n0, rest⟩
    · rw [hnat]
    · rw [hnat] at h ⊢
      dsimp only
      by_cases hsuit : ((n0 :: rest).all fun c => decide (c.suit = n0.suit)) = true
      · rw [if_neg (by simp [hsuit]), if_pos h]
      · rw [if_pos (by simp [hsuit])]

theorem filter_replicate_mkJoker (j i : Nat) :
    (List.replicate j (mkJoker i)).filter (fun c => !c.isJoker) = [] := by
  induction j with
  | zero => rfl
  | succ n ih => simp [List.replicate_succ, List.filter_cons, mkJoker, ih]

/-- C3: the client sequence classifier accepts exactly the
specification's conditions (size, shared suit, no repeated rank, the
joker-adjacency bound, and the ace-low/ace-high slot-fitting search);
validity depends only on the multiset of cards; and K♠ A♠ 2♠ with any
number of jokers is never a valid sequence. -/
theorem isValidSequence_spec :
    (∀ cards : List Card,
      isValidSequence cards = true ↔ isSequenceSpec cards) ∧
    (∀ cards cards' : List Card, cards.Perm cards' →
      isValidSequence cards = isValidSequence cards') ∧
    (∀ j : Nat, isValidSequence
      ([mkCard 1 .rK .spades, mkCard 2 .rA .spades, mkCard 3 .r2 .spades] ++
        List.replicate j (mkJoker 4)) = false) := by
  refine ⟨isValidSequence_iff_spec, ?_, ?_⟩
  · intro cards cards' h
    rw [Bool.eq_iff_iff, isValidSequence_iff_spec, isValidSequence_iff_spec]
    exact ⟨isSequenceSpec_of_perm h, isSequenceSpec_of_perm h.symm⟩
  · intro j
    by_cases hj : j ≤ 4
    · interval_cases j <;> decide
    · apply isValidSequence_eq_false_of_many_jokers
      rw [List.filter_append, filter_replicate_mkJoker]
      simp only [List.length_append, List.length_replicate]
      have : (([mkCard 1 .rK .spades, mkCard 2 .rA .spades,
          mkCard 3 .r2 .spades] : List Card).filter
            (fun c => !c.isJoker)).length = 3 := by decide
      have hb : ([mkCard 1 .rK .spades, mkCard 2 .rA .spades,
          mkCard 3 .r2 .spades] : List Card).length = 3 := rfl
      rw [this, hb]
      simp only [List.length_nil]
      omega

theorem isValidSequence_spec_witness :
    isValidSequence [mkCard 1 .r6 .hearts, mkCard 2 .r5 .hearts,
        mkCard 3 .r7 .hearts] =
      isValidSequence [mkCard 2 .r5 .hearts, mkCard 1 .r6 .hearts,
        mkCard 3 .r7 .hearts] :=
  isValidSequence_spec.2.1 _ _ (by decide)

end Remik
